import Mathlib

/-!
Shallow embedding of the lazy evaluation engine of `src/execution/lazy/store.rs`
(tree-sitter-graph): the thunk store (`LazyStore`, `Thunk`, `ThunkState`,
`LazyVariable`) and the scoped-variable container (`LazyScopedVariables`,
`ScopedValues`), together with theorems settling the frozen claims about them.

The interior mutability of the Rust code (`Rc<RefCell<ThunkState>>`,
`Cell<ScopedValues>`) is modelled by explicit state passing: `ExecState`
carries the vector of thunks and an injected invocation counter for the
LazyValue evaluator (the spec's P1 counter).  Recursion between the evaluator
and `Thunk::force` is modelled with a fuel parameter; `none` means the fuel
ran out (or the Rust code would have panicked on an out-of-bounds index),
`some (.error e, s)` is an `Err(e)` with resulting state `s`, and
`some (.ok v, s)` an `Ok(v)`.
-/

deriving instance DecidableEq for Except

namespace TSG

/-- Modelled from the spec: syntax nodes are opaque handles with equality and
hashability (tree-sitter integration is out of scope); we use `Nat`. -/
abbrev SyntaxNodeRef := Nat

/-- Modelled from the spec: identifiers name scoped variables; we use `String`. -/
abbrev Identifier := String

/-- Modelled from the spec: `StatementContext` (error.rs is not under src/);
only its `statement_location`, used by `Display for DebugInfo`, matters here. -/
structure StatementContext where
  statement_location : Nat
deriving DecidableEq, Repr

/-- Debug info for tracking origins of values (`DebugInfo(StatementContext)`). -/
structure DebugInfo where
  ctx : StatementContext
deriving DecidableEq, Repr

/-- Display of `DebugInfo` prints the statement location. -/
def DebugInfo.display (d : DebugInfo) : String :=
  toString d.ctx.statement_location

/-- Modelled from the spec: graph values (graph.rs is not under src/) are used
opaquely by the store; `evaluate_as_syntax_node` must be able to distinguish
syntax-node-valued results, so one constructor carries a `SyntaxNodeRef`. -/
inductive GraphValue where
  | node (n : SyntaxNodeRef)
  | data (k : Nat)
deriving DecidableEq, Repr

/-- Modelled from the spec: an error `Context` (error.rs is not under src/).
The store wraps errors with a statement context (`debug_info.0.into()`), a
free-form message (`format!(..).into()`), or a dual-origin pair of statement
contexts (`(prev_debug_info.unwrap().0, debug_info.0).into()`). -/
inductive Context where
  | stmt (c : StatementContext)
  | msg (s : String)
  | pair (c₁ c₂ : StatementContext)
deriving DecidableEq, Repr

/-- Modelled from the spec: the error taxonomy of §7 (error.rs is not under
src/); `InContext` is what `with_context` produces around an inner error, and
`Other` stands for errors propagated from the embedded LazyValue evaluator. -/
inductive ExecutionError where
  | RecursivelyDefinedVariable (w : String)
  | RecursivelyDefinedScopedVariable (w : String)
  | VariableScopesAlreadyForced (w : String)
  | UndefinedScopedVariable (w : String)
  | DuplicateVariable (w : String)
  | Other (w : String)
  | InContext (c : Context) (e : ExecutionError)
deriving DecidableEq, Repr

/-- Modelled from the spec: `LazyValue` (values.rs is not under src/) is a
closed expression the store forces through the `EvaluationContext`.  The store
uses it opaquely; this deep embedding gives the evaluator the behaviours the
spec attributes to it: producing a graph value, failing, recursively forcing
another handle of the store (`load`, the spec's handle-embedded dependency),
and sequencing sub-evaluations. -/
inductive LazyValue where
  | const (v : GraphValue)
  | load (store_location : Nat)
  | seq (a b : LazyValue)
  | fail (e : ExecutionError)
deriving DecidableEq, Repr

/-- Tri-state cell of a thunk: `Unforced | Forcing | Forced`. -/
inductive ThunkState where
  | Unforced (v : LazyValue)
  | Forcing
  | Forced (v : GraphValue)
deriving DecidableEq, Repr

/-- Thunk holding a lazy value or a forced graph value, plus its debug info. -/
structure Thunk where
  state : ThunkState
  debug_info : DebugInfo
deriving DecidableEq, Repr

/-- `Thunk::new` returns an Unforced thunk. -/
def Thunk.new (value : LazyValue) (debug_info : DebugInfo) : Thunk :=
  ⟨ThunkState.Unforced value, debug_info⟩

/-- Variable that points to a thunk in the store (`LazyVariable`). -/
structure LazyVariable where
  store_location : Nat
deriving DecidableEq, Repr

/-- Store holding thunks of lazy values (`LazyStore`). -/
structure LazyStore where
  elements : List Thunk
deriving DecidableEq, Repr

/-- `LazyStore::new` creates an empty store. -/
def LazyStore.new : LazyStore := ⟨[]⟩

/-- `LazyStore::add`: records the current length as the new handle's location
and pushes a fresh Unforced thunk. -/
def LazyStore.add (s : LazyStore) (value : LazyValue) (debug_info : DebugInfo) :
    LazyVariable × LazyStore :=
  (⟨s.elements.length⟩, ⟨s.elements ++ [Thunk.new value debug_info]⟩)

/-- The mutable evaluation state threaded through forcing: the store (whose
thunks are behind `Rc<RefCell<..>>` in Rust) and the injected counter of
LazyValue-evaluator invocations used to state the spec's P1. -/
structure ExecState where
  store : LazyStore
  evalCount : Nat
deriving DecidableEq, Repr

/-- Replace the state of the thunk at index `i`, keeping its debug info
(the `RefCell::replace` / final write of `Thunk::force`). -/
def setThunkState : List Thunk → Nat → ThunkState → List Thunk
  | [], _, _ => []
  | t :: ts, 0, st => ⟨st, t.debug_info⟩ :: ts
  | t :: ts, Nat.succ n, st => t :: setThunkState ts n st

/-- State update of a single thunk cell inside the execution state. -/
def ExecState.setThunk (s : ExecState) (i : Nat) (st : ThunkState) : ExecState :=
  { s with store := ⟨setThunkState s.store.elements i st⟩ }

/-- The tri-state of the thunk at index `i`, if that slot exists. -/
def ExecState.stateAt (s : ExecState) (i : Nat) : Option ThunkState :=
  (s.store.elements[i]?).map Thunk.state

/-- The debug info of the thunk at index `i`, if that slot exists. -/
def ExecState.debugAt (s : ExecState) (i : Nat) : Option DebugInfo :=
  (s.store.elements[i]?).map Thunk.debug_info

/-- Tick of the injected evaluator-invocation counter. -/
def ExecState.bump (s : ExecState) : ExecState := { s with evalCount := s.evalCount + 1 }

/-- The three mutually recursive entry points of the engine, reified so that
the interpreter below is structurally recursive on fuel. -/
inductive Call where
  | evalV (v : LazyValue)
  | forceT (i : Nat)
  | storeEval (i : Nat)
deriving DecidableEq, Repr

/-- One fuel-indexed interpreter for the mutual recursion between the
LazyValue evaluator (modelled from the spec), `Thunk::force` and
`LazyStore::evaluate` (both translated from store.rs).  Fuel exhaustion and
the panics of Rust vector indexing are both rendered as `none`. -/
def step : Nat → Call → ExecState → Option (Except ExecutionError GraphValue × ExecState)
  | 0, _, _ => none
  | Nat.succ fuel, c, s =>
    match c with
    | .evalV v =>
      match v with
      | .const g => some (.ok g, s.bump)
      | .fail e => some (.error e, s.bump)
      | .seq a b =>
        match step fuel (.evalV a) s.bump with
        | none => none
        | some (.error e, s') => some (.error e, s')
        | some (.ok _, s') => step fuel (.evalV b) s'
      | .load i => step fuel (.storeEval i) s.bump
    | .forceT i =>
      match s.store.elements[i]? with
      | none => none
      | some t =>
        match t.state with
        | .Unforced v =>
          match step fuel (.evalV v) (s.setThunk i .Forcing) with
          | none => none
          | some (.error e, s₂) => some (.error e, s₂)
          | some (.ok g, s₂) => some (.ok g, s₂.setThunk i (.Forced g))
        | .Forced g => some (.ok g, (s.setThunk i .Forcing).setThunk i (.Forced g))
        | .Forcing =>
          some (.error (.RecursivelyDefinedVariable t.debug_info.display), s.setThunk i .Forcing)
    | .storeEval i =>
      match s.store.elements[i]? with
      | none => none
      | some t =>
        match step fuel (.forceT i) s with
        | none => none
        | some (.error e, s') => some (.error (.InContext (.stmt t.debug_info.ctx) e), s')
        | some (.ok g, s') => some (.ok g, s')

/-- Modelled from the spec: the LazyValue evaluator, entered through the
EvaluationContext; every invocation ticks the injected counter. -/
def LazyValue.evaluate (fuel : Nat) (v : LazyValue) (s : ExecState) :
    Option (Except ExecutionError GraphValue × ExecState) :=
  step fuel (.evalV v) s

/-- `Thunk::force` on the thunk at slot `i`: replace the state with `Forcing`,
dispatch on the previous state, and write `Forced` back on success only. -/
def Thunk.force (fuel : Nat) (i : Nat) (s : ExecState) :
    Option (Except ExecutionError GraphValue × ExecState) :=
  step fuel (.forceT i) s

/-- `LazyStore::evaluate`: look the slot up, force it, and wrap any error with
the thunk's debug info as context. -/
def LazyStore.evaluate (fuel : Nat) (i : Nat) (s : ExecState) :
    Option (Except ExecutionError GraphValue × ExecState) :=
  step fuel (.storeEval i) s

/-- Loop body of `LazyStore::evaluate_all`: force `n` slots starting at index
`i` in insertion order, stopping at the first error, which is wrapped with the
failing slot's debug info as context. -/
def LazyStore.evaluate_allAux (fuel : Nat) :
    Nat → Nat → ExecState → Option (Except ExecutionError Unit × ExecState)
  | 0, _, s => some (.ok (), s)
  | Nat.succ n, i, s =>
    match s.store.elements[i]? with
    | none => none
    | some t =>
      match Thunk.force fuel i s with
      | none => none
      | some (.error e, s') => some (.error (.InContext (.stmt t.debug_info.ctx) e), s')
      | some (.ok _, s') => LazyStore.evaluate_allAux fuel n (i + 1) s'

/-- `LazyStore::evaluate_all` forces every slot in insertion order. -/
def LazyStore.evaluate_all (fuel : Nat) (s : ExecState) :
    Option (Except ExecutionError Unit × ExecState) :=
  LazyStore.evaluate_allAux fuel s.store.elements.length 0 s

/-- First-match lookup in an association list (model of `HashMap::get`). -/
def assocGet {κ α : Type} [DecidableEq κ] : List (κ × α) → κ → Option α
  | [], _ => none
  | (k₀, v₀) :: rest, k => if k₀ = k then some v₀ else assocGet rest k

/-- Model of `HashMap::insert`: returns the previous value bound to the key
(if any) together with the updated map. -/
def assocInsert {κ α : Type} [DecidableEq κ] :
    List (κ × α) → κ → α → Option α × List (κ × α)
  | [], k, v => (none, [(k, v)])
  | (k₀, v₀) :: rest, k, v =>
    if k₀ = k then (some v₀, (k₀, v) :: rest)
    else
      let r := assocInsert rest k v
      (r.1, (k₀, v₀) :: r.2)

/-- Tri-state container of a scoped-variable cell: pending
`(scope_expr, value_expr, debug)` triples, the in-progress sentinel, or the
sealed syntax-node → LazyValue map. -/
inductive ScopedValues where
  | Unforced (pairs : List (LazyValue × LazyValue × DebugInfo))
  | Forcing
  | Forced (map : List (SyntaxNodeRef × LazyValue))
deriving DecidableEq, Repr

/-- `ScopedValues::new` starts Unforced with no pending triples. -/
def ScopedValues.new : ScopedValues := .Unforced []

/-- Data structure to hold scoped variables with lazy keys and values
(`LazyScopedVariables`); the `HashMap<Identifier, Cell<ScopedValues>>` is
modelled as an association list. -/
structure LazyScopedVariables where
  cells : List (Identifier × ScopedValues)
deriving DecidableEq, Repr

/-- `LazyScopedVariables::new` starts with no cells. -/
def LazyScopedVariables.new : LazyScopedVariables := ⟨[]⟩

/-- Lookup of the cell of `name` (model of `self.variables.get(name)`). -/
def LazyScopedVariables.getCell? (vars : LazyScopedVariables) (name : Identifier) :
    Option ScopedValues :=
  assocGet vars.cells name

/-- Update-or-insert of the cell of `name` (the net effect of
`entry(..).or_insert(..)` followed by `Cell::replace` writes). -/
def setCellList : List (Identifier × ScopedValues) → Identifier → ScopedValues →
    List (Identifier × ScopedValues)
  | [], name, v => [(name, v)]
  | (n, w) :: rest, name, v =>
    if n = name then (n, v) :: rest else (n, w) :: setCellList rest name v

/-- Update-or-insert of the cell of `name` inside the container. -/
def LazyScopedVariables.setCell (vars : LazyScopedVariables) (name : Identifier)
    (v : ScopedValues) : LazyScopedVariables :=
  ⟨setCellList vars.cells name v⟩

/-- Modelled from the spec: `evaluate_as_syntax_node` (values.rs is not under
src/), the distinct evaluator entry point for syntax-node-typed LazyValues:
evaluate, then require a syntax-node result (a wrong-typed scope expression is
an error of the embedded evaluator). -/
def LazyValue.evaluate_as_syntax_node (fuel : Nat) (v : LazyValue) (s : ExecState) :
    Option (Except ExecutionError SyntaxNodeRef × ExecState) :=
  match LazyValue.evaluate fuel v s with
  | none => none
  | some (.error e, s') => some (.error e, s')
  | some (.ok (.node n), s') => some (.ok n, s')
  | some (.ok (.data _), s') => some (.error (.Other "expected a syntax node"), s')

/-- Loop of `LazyScopedVariables::force` over the pending triples: evaluate
each scope expression to a syntax node (wrapping its errors with the message
context and then the triple's debug info), record the triple's debug info, and
insert the node into the map; a previous binding of the same node is a
`DuplicateVariable` error carrying both debug infos as dual-origin context. -/
def forcePairs (fuel : Nat) (name : Identifier) :
    List (LazyValue × LazyValue × DebugInfo) →
    List (SyntaxNodeRef × LazyValue) → List (SyntaxNodeRef × DebugInfo) → ExecState →
    Option (Except ExecutionError (List (SyntaxNodeRef × LazyValue)) × ExecState)
  | [], map, _, s => some (.ok map, s)
  | (scope, value, debug_info) :: rest, map, debug_infos, s =>
    match LazyValue.evaluate_as_syntax_node fuel scope s with
    | none => none
    | some (.error e, s') =>
      some (.error (.InContext (.stmt debug_info.ctx)
        (.InContext (.msg ("Evaluating scope of variable _." ++ name)) e)), s')
    | some (.ok node, s') =>
      let prev_debug_info := (assocInsert debug_infos node debug_info).1
      let debug_infos' := (assocInsert debug_infos node debug_info).2
      let inserted := assocInsert map node value
      match inserted.1 with
      | some _ =>
        match prev_debug_info with
        | none => none
        | some prev =>
          some (.error (.InContext (.pair prev.ctx debug_info.ctx)
            (.DuplicateVariable (toString node ++ "." ++ name))), s')
      | none => forcePairs fuel name rest inserted.2 debug_infos' s'

/-- `LazyScopedVariables::force` on the prior state of a single name's cell. -/
def LazyScopedVariables.force (fuel : Nat) (name : Identifier) (values : ScopedValues)
    (s : ExecState) :
    Option (Except ExecutionError (List (SyntaxNodeRef × LazyValue)) × ExecState) :=
  match values with
  | .Unforced pairs => forcePairs fuel name pairs [] [] s
  | .Forcing => some (.error (.RecursivelyDefinedScopedVariable ("_." ++ name)), s)
  | .Forced map => some (.ok map, s)

/-- `LazyScopedVariables::add`: dispatch on the name's current cell state
(after `entry(..).or_insert` with a fresh Unforced cell): append the triple
while Unforced, fail while Forcing (the cell stays Forcing), fail with the
seal error when Forced (the map is restored). -/
def LazyScopedVariables.add (vars : LazyScopedVariables) (scope : LazyValue)
    (name : Identifier) (value : LazyValue) (debug_info : DebugInfo) :
    Except ExecutionError Unit × LazyScopedVariables :=
  match (vars.getCell? name).getD ScopedValues.new with
  | .Unforced pairs =>
    (.ok (), vars.setCell name (.Unforced (pairs ++ [(scope, value, debug_info)])))
  | .Forcing => (.error (.RecursivelyDefinedScopedVariable name), vars.setCell name .Forcing)
  | .Forced map =>
    (.error (.VariableScopesAlreadyForced name), vars.setCell name (.Forced map))

/-- `LazyScopedVariables::evaluate`: absent name is `UndefinedScopedVariable`
(the container is untouched); otherwise replace the cell with `Forcing`, force
the prior state, look the scope node up in the resolved map (a missing node is
`UndefinedScopedVariable`, raised before the map is written back), and only on
success seal the cell with `Forced(map)` and return the bound LazyValue. -/
def LazyScopedVariables.evaluate (fuel : Nat) (vars : LazyScopedVariables)
    (scope : SyntaxNodeRef) (name : Identifier) (s : ExecState) :
    Option (Except ExecutionError LazyValue × LazyScopedVariables × ExecState) :=
  match vars.getCell? name with
  | none =>
    some (.error (.UndefinedScopedVariable (toString scope ++ "." ++ name)), vars, s)
  | some values =>
    match LazyScopedVariables.force fuel name values s with
    | none => none
    | some (.error e, s') => some (.error e, vars.setCell name .Forcing, s')
    | some (.ok map, s') =>
      match assocGet map scope with
      | none =>
        some (.error (.UndefinedScopedVariable (toString scope ++ "." ++ name)),
          vars.setCell name .Forcing, s')
      | some result =>
        some (.ok result, (vars.setCell name .Forcing).setCell name (.Forced map), s')

/-- Loop body of `LazyScopedVariables::evaluate_all` over the names of the
container: replace each cell with `Forcing`, force the prior state, and seal
the cell with the resolved map; the first error aborts. -/
def LazyScopedVariables.evaluate_allAux (fuel : Nat) :
    List Identifier → LazyScopedVariables → ExecState →
    Option (Except ExecutionError Unit × LazyScopedVariables × ExecState)
  | [], vars, s => some (.ok (), vars, s)
  | name :: rest, vars, s =>
    match vars.getCell? name with
    | none => none
    | some values =>
      match LazyScopedVariables.force fuel name values s with
      | none => none
      | some (.error e, s') => some (.error e, vars.setCell name .Forcing, s')
      | some (.ok map, s') =>
        LazyScopedVariables.evaluate_allAux fuel rest
          ((vars.setCell name .Forcing).setCell name (.Forced map)) s'

/-- `LazyScopedVariables::evaluate_all` forces every name's map. -/
def LazyScopedVariables.evaluate_all (fuel : Nat) (vars : LazyScopedVariables)
    (s : ExecState) :
    Option (Except ExecutionError Unit × LazyScopedVariables × ExecState) :=
  LazyScopedVariables.evaluate_allAux fuel (vars.cells.map Prod.fst) vars s

/-! Basic lemmas about the single-slot state update. -/

theorem length_setThunkState (l : List Thunk) (i : Nat) (st : ThunkState) :
    (setThunkState l i st).length = l.length := by
  induction l generalizing i with
  | nil => rfl
  | cons t ts ih =>
    cases i with
    | zero => rfl
    | succ n => simp [setThunkState, ih]

theorem get?_setThunkState_self {l : List Thunk} {i : Nat} {t : Thunk} (st : ThunkState)
    (h : l[i]? = some t) :
    (setThunkState l i st)[i]? = some ⟨st, t.debug_info⟩ := by
  induction l generalizing i with
  | nil => simp at h
  | cons hd tl ih =>
    cases i with
    | zero => simp_all [setThunkState]
    | succ n =>
      simp only [List.getElem?_cons_succ] at h
      simpa [setThunkState] using ih h

theorem get?_setThunkState_ne {i j : Nat} (l : List Thunk) (st : ThunkState)
    (h : j ≠ i) : (setThunkState l i st)[j]? = l[j]? := by
  induction l generalizing i j with
  | nil => rfl
  | cons hd tl ih =>
    cases i with
    | zero =>
      cases j with
      | zero => exact absurd rfl h
      | succ m => simp [setThunkState]
    | succ n =>
      cases j with
      | zero => simp [setThunkState]
      | succ m =>
        simp only [setThunkState, List.getElem?_cons_succ]
        exact ih (fun hc => h (by simp [hc]))

theorem setThunkState_setThunkState (l : List Thunk) (i : Nat) (a b : ThunkState) :
    setThunkState (setThunkState l i a) i b = setThunkState l i b := by
  induction l generalizing i with
  | nil => rfl
  | cons hd tl ih =>
    cases i with
    | zero => rfl
    | succ n => simp [setThunkState, ih]

theorem setThunkState_self {l : List Thunk} {i : Nat} {t : Thunk}
    (h : l[i]? = some t) : setThunkState l i t.state = l := by
  induction l generalizing i with
  | nil => rfl
  | cons hd tl ih =>
    cases i with
    | zero =>
      simp only [List.getElem?_cons_zero, Option.some_inj] at h
      subst h
      rfl
    | succ n =>
      simp only [List.getElem?_cons_succ] at h
      simp [setThunkState, ih h]

theorem ExecState.setThunk_stateAt_self {s : ExecState} {i : Nat} {t : Thunk}
    (st : ThunkState) (h : s.store.elements[i]? = some t) :
    (s.setThunk i st).stateAt i = some st := by
  simp [ExecState.stateAt, ExecState.setThunk, get?_setThunkState_self st h]

theorem ExecState.setThunk_self {s : ExecState} {i : Nat} {t : Thunk}
    (h : s.store.elements[i]? = some t) : s.setThunk i t.state = s := by
  simp [ExecState.setThunk, setThunkState_self h]

theorem ExecState.setThunk_setThunk (s : ExecState) (i : Nat) (a b : ThunkState) :
    (s.setThunk i a).setThunk i b = s.setThunk i b := by
  simp [ExecState.setThunk, setThunkState_setThunkState]

/-! State preservation: any run of the interpreter keeps the number of slots
and every slot's debug info, and never downgrades a slot that is `Forcing` or
`Forced` (claims C1, C2, C5, C6, C8 all rest on this invariant). -/

/-- Facts preserved by every interpreter run, from the starting state to the
resulting one. -/
def StatePres (s s' : ExecState) : Prop :=
  s'.store.elements.length = s.store.elements.length ∧
  (∀ j, s'.debugAt j = s.debugAt j) ∧
  (∀ j, s.stateAt j = some .Forcing → s'.stateAt j = some .Forcing) ∧
  (∀ j g, s.stateAt j = some (.Forced g) → s'.stateAt j = some (.Forced g))

theorem StatePres.refl (s : ExecState) : StatePres s s :=
  ⟨rfl, fun _ => rfl, fun _ h => h, fun _ _ h => h⟩

theorem StatePres.trans {s s' s'' : ExecState}
    (h : StatePres s s') (h' : StatePres s' s'') : StatePres s s'' :=
  ⟨h'.1.trans h.1,
   fun j => (h'.2.1 j).trans (h.2.1 j),
   fun j hj => h'.2.2.1 j (h.2.2.1 j hj),
   fun j g hj => h'.2.2.2 j g (h.2.2.2 j g hj)⟩

theorem StatePres.of_store_eq {s s' : ExecState} (h : s'.store = s.store) :
    StatePres s s' := by
  refine ⟨by rw [h], fun j => ?_, fun j hj => ?_, fun j g hj => ?_⟩ <;>
    simp_all [ExecState.debugAt, ExecState.stateAt]

theorem StatePres.bump (s : ExecState) : StatePres s s.bump :=
  StatePres.of_store_eq rfl

/-! Unfolding equations of the interpreter, one per source branch. -/

theorem step_zero (c : Call) (s : ExecState) : step 0 c s = none := rfl

theorem step_const (fuel : Nat) (g : GraphValue) (s : ExecState) :
    step (fuel + 1) (.evalV (.const g)) s = some (.ok g, s.bump) := rfl

theorem step_fail (fuel : Nat) (e : ExecutionError) (s : ExecState) :
    step (fuel + 1) (.evalV (.fail e)) s = some (.error e, s.bump) := rfl

theorem step_seq (fuel : Nat) (a b : LazyValue) (s : ExecState) :
    step (fuel + 1) (.evalV (.seq a b)) s =
      match step fuel (.evalV a) s.bump with
      | none => none
      | some (.error e, s') => some (.error e, s')
      | some (.ok _, s') => step fuel (.evalV b) s' := rfl

theorem step_load (fuel : Nat) (i : Nat) (s : ExecState) :
    step (fuel + 1) (.evalV (.load i)) s = step fuel (.storeEval i) s.bump := rfl

theorem step_forceT_none {s : ExecState} {i : Nat} (fuel : Nat)
    (h : s.store.elements[i]? = none) : step (fuel + 1) (.forceT i) s = none := by
  simp only [step, h]

theorem step_forceT_Unforced {s : ExecState} {i : Nat} {t : Thunk} {v : LazyValue}
    (fuel : Nat) (h : s.store.elements[i]? = some t) (hst : t.state = .Unforced v) :
    step (fuel + 1) (.forceT i) s =
      match step fuel (.evalV v) (s.setThunk i .Forcing) with
      | none => none
      | some (.error e, s₂) => some (.error e, s₂)
      | some (.ok g, s₂) => some (.ok g, s₂.setThunk i (.Forced g)) := by
  simp only [step, h, hst]

theorem step_forceT_Forced {s : ExecState} {i : Nat} {t : Thunk} {g : GraphValue}
    (fuel : Nat) (h : s.store.elements[i]? = some t) (hst : t.state = .Forced g) :
    step (fuel + 1) (.forceT i) s =
      some (.ok g, (s.setThunk i .Forcing).setThunk i (.Forced g)) := by
  simp only [step, h, hst]

theorem step_forceT_Forcing {s : ExecState} {i : Nat} {t : Thunk}
    (fuel : Nat) (h : s.store.elements[i]? = some t) (hst : t.state = .Forcing) :
    step (fuel + 1) (.forceT i) s =
      some (.error (.RecursivelyDefinedVariable t.debug_info.display),
        s.setThunk i .Forcing) := by
  simp only [step, h, hst]

theorem step_storeEval_none {s : ExecState} {i : Nat} (fuel : Nat)
    (h : s.store.elements[i]? = none) : step (fuel + 1) (.storeEval i) s = none := by
  simp only [step, h]

theorem step_storeEval_some {s : ExecState} {i : Nat} {t : Thunk} (fuel : Nat)
    (h : s.store.elements[i]? = some t) :
    step (fuel + 1) (.storeEval i) s =
      match step fuel (.forceT i) s with
      | none => none
      | some (.error e, s') => some (.error (.InContext (.stmt t.debug_info.ctx) e), s')
      | some (.ok g, s') => some (.ok g, s') := by
  simp only [step, h]

/-- Writing a state into a slot that is neither `Forcing` nor `Forced`
preserves the invariant. -/
theorem StatePres.setThunk_of_unforced {s : ExecState} {i : Nat} {v : LazyValue}
    (h : s.stateAt i = some (.Unforced v)) (st : ThunkState) :
    StatePres s (s.setThunk i st) := by
  refine ⟨by simp [ExecState.setThunk, length_setThunkState], fun j => ?_,
    fun j hj => ?_, fun j g hj => ?_⟩
  · rcases Decidable.em (j = i) with rfl | hne
    · simp only [ExecState.stateAt, Option.map_eq_some'] at h
      obtain ⟨t, ht, -⟩ := h
      simp [ExecState.debugAt, ExecState.setThunk, get?_setThunkState_self st ht, ht]
    · simp [ExecState.debugAt, ExecState.setThunk, get?_setThunkState_ne _ _ hne]
  · rcases Decidable.em (j = i) with rfl | hne
    · rw [h] at hj; cases hj
    · simpa [ExecState.stateAt, ExecState.setThunk, get?_setThunkState_ne _ _ hne] using hj
  · rcases Decidable.em (j = i) with rfl | hne
    · rw [h] at hj; cases hj
    · simpa [ExecState.stateAt, ExecState.setThunk, get?_setThunkState_ne _ _ hne] using hj

theorem exists_of_stateAt {s : ExecState} {i : Nat} {st : ThunkState}
    (h : s.stateAt i = some st) :
    ∃ t, s.store.elements[i]? = some t ∧ t.state = st := by
  simpa [ExecState.stateAt, Option.map_eq_some'] using h

theorem stateAt_of_getElem {s : ExecState} {i : Nat} {t : Thunk}
    (h : s.store.elements[i]? = some t) : s.stateAt i = some t.state := by
  simp [ExecState.stateAt, h]

theorem debugAt_of_getElem {s : ExecState} {i : Nat} {t : Thunk}
    (h : s.store.elements[i]? = some t) : s.debugAt i = some t.debug_info := by
  simp [ExecState.debugAt, h]

/-- After forcing started on an Unforced slot, the final write into that slot
again preserves the invariant relative to the pre-force state. -/
theorem StatePres.setThunk_of_unforced_after {s s₂ : ExecState} {i : Nat} {v : LazyValue}
    (hu : s.stateAt i = some (.Unforced v)) (hp : StatePres s s₂) (st : ThunkState) :
    StatePres s (s₂.setThunk i st) := by
  obtain ⟨t, ht, htst⟩ := exists_of_stateAt hu
  refine ⟨?_, fun j => ?_, fun j hj => ?_, fun j g hj => ?_⟩
  · simp [ExecState.setThunk, length_setThunkState, hp.1]
  · rcases Decidable.em (j = i) with rfl | hne
    · have hd : s₂.debugAt j = s.debugAt j := hp.2.1 j
      rw [debugAt_of_getElem ht] at hd
      obtain ⟨t₂, ht₂, htd⟩ : ∃ t₂, s₂.store.elements[j]? = some t₂ ∧
          t₂.debug_info = t.debug_info := by
        simpa [ExecState.debugAt, Option.map_eq_some'] using hd
      rw [debugAt_of_getElem ht]
      simp [ExecState.debugAt, ExecState.setThunk, get?_setThunkState_self st ht₂, htd]
    · have hd := hp.2.1 j
      simp only [ExecState.debugAt] at hd
      simp [ExecState.debugAt, ExecState.setThunk, get?_setThunkState_ne _ _ hne, hd]
  · rcases Decidable.em (j = i) with rfl | hne
    · rw [hu] at hj; cases hj
    · have := hp.2.2.1 j hj
      simpa [ExecState.stateAt, ExecState.setThunk, get?_setThunkState_ne _ _ hne]
        using this
  · rcases Decidable.em (j = i) with rfl | hne
    · rw [hu] at hj; cases hj
    · have := hp.2.2.2 j g hj
      simpa [ExecState.stateAt, ExecState.setThunk, get?_setThunkState_ne _ _ hne]
        using this

/-- Rewriting a `Forced` slot while passing through `Forcing` (the `Forced`
branch of `Thunk::force`) leaves the state unchanged. -/
theorem setThunk_roundtrip_Forced {s : ExecState} {i : Nat} {t : Thunk} {g : GraphValue}
    (h : s.store.elements[i]? = some t) (hst : t.state = .Forced g) :
    (s.setThunk i .Forcing).setThunk i (.Forced g) = s := by
  rw [ExecState.setThunk_setThunk]
  have : ThunkState.Forced g = t.state := hst.symm
  rw [this]
  exact ExecState.setThunk_self h

/-- Rewriting a `Forcing` slot with `Forcing` (the `Forcing` branch of
`Thunk::force`) leaves the state unchanged. -/
theorem setThunk_roundtrip_Forcing {s : ExecState} {i : Nat} {t : Thunk}
    (h : s.store.elements[i]? = some t) (hst : t.state = .Forcing) :
    s.setThunk i .Forcing = s := by
  have : ThunkState.Forcing = t.state := hst.symm
  rw [this]
  exact ExecState.setThunk_self h

/-- Every interpreter run preserves the slot invariant. -/
theorem step_pres (fuel : Nat) :
    ∀ (c : Call) (s : ExecState) (r : Except ExecutionError GraphValue) (s' : ExecState),
      step fuel c s = some (r, s') → StatePres s s' := by
  induction fuel with
  | zero => intro c s r s' h; rw [step_zero] at h; cases h
  | succ fuel ih =>
    intro c s r s' h
    cases c with
    | evalV v =>
      cases v with
      | const g =>
        rw [step_const] at h
        obtain ⟨-, rfl⟩ : Except.ok g = r ∧ s.bump = s' := by
          simpa using h
        exact StatePres.bump s
      | fail e =>
        rw [step_fail] at h
        obtain ⟨-, rfl⟩ : Except.error e = r ∧ s.bump = s' := by
          simpa using h
        exact StatePres.bump s
      | seq a b =>
        rw [step_seq] at h
        split at h
        · cases h
        · next heq =>
            obtain ⟨rfl, rfl⟩ : _ ∧ _ = s' := by simpa using h
            exact (StatePres.bump s).trans (ih _ _ _ _ heq)
        · next heq =>
            exact ((StatePres.bump s).trans (ih _ _ _ _ heq)).trans (ih _ _ _ _ h)
      | load i =>
        rw [step_load] at h
        exact (StatePres.bump s).trans (ih _ _ _ _ h)
    | forceT i =>
      cases hget : s.store.elements[i]? with
      | none => rw [step_forceT_none fuel hget] at h; cases h
      | some t =>
        cases hst : t.state with
        | Unforced v =>
          rw [step_forceT_Unforced fuel hget hst] at h
          have hu : s.stateAt i = some (.Unforced v) := by
            rw [stateAt_of_getElem hget, hst]
          have hpre : StatePres s (s.setThunk i .Forcing) :=
            StatePres.setThunk_of_unforced hu .Forcing
          split at h
          · cases h
          · next heq =>
              obtain ⟨rfl, rfl⟩ : _ ∧ _ = s' := by simpa using h
              exact hpre.trans (ih _ _ _ _ heq)
          · next g s₂ heq =>
              obtain ⟨rfl, rfl⟩ : _ ∧ s₂.setThunk i (.Forced g) = s' := by simpa using h
              exact StatePres.setThunk_of_unforced_after hu
                (hpre.trans (ih _ _ _ _ heq)) _
        | Forcing =>
          rw [step_forceT_Forcing fuel hget hst] at h
          obtain ⟨-, rfl⟩ : _ ∧ s.setThunk i .Forcing = s' := by simpa using h
          rw [setThunk_roundtrip_Forcing hget hst]
          exact StatePres.refl s
        | Forced g =>
          rw [step_forceT_Forced fuel hget hst] at h
          obtain ⟨-, rfl⟩ : _ ∧ (s.setThunk i .Forcing).setThunk i (.Forced g) = s' := by
            simpa using h
          rw [setThunk_roundtrip_Forced hget hst]
          exact StatePres.refl s
    | storeEval i =>
      cases hget : s.store.elements[i]? with
      | none => rw [step_storeEval_none fuel hget] at h; cases h
      | some t =>
        rw [step_storeEval_some fuel hget] at h
        split at h
        · cases h
        · next heq =>
            obtain ⟨-, rfl⟩ : _ ∧ _ = s' := by simpa using h
            exact ih _ _ _ _ heq
        · next heq =>
            obtain ⟨-, rfl⟩ : _ ∧ _ = s' := by simpa using h
            exact ih _ _ _ _ heq

/-- `setThunkState` never changes any slot's debug info. -/
theorem debug_setThunkState (l : List Thunk) (i : Nat) (st : ThunkState) (j : Nat) :
    ((setThunkState l i st)[j]?).map Thunk.debug_info = (l[j]?).map Thunk.debug_info := by
  induction l generalizing i j with
  | nil => rfl
  | cons hd tl ih =>
    cases i with
    | zero =>
      cases j with
      | zero => simp [setThunkState]
      | succ m => simp [setThunkState]
    | succ n =>
      cases j with
      | zero => simp [setThunkState]
      | succ m => simpa [setThunkState] using ih n m

/-- A single-slot state write never changes any slot's debug info. -/
theorem ExecState.setThunk_debugAt (s : ExecState) (i : Nat) (st : ThunkState) (j : Nat) :
    (s.setThunk i st).debugAt j = s.debugAt j := by
  simp [ExecState.debugAt, ExecState.setThunk, debug_setThunkState]

/-- A successful force leaves its slot `Forced` with the returned value. -/
theorem force_ok_stateAt {fuel i : Nat} {s : ExecState} {g : GraphValue} {s' : ExecState}
    (h : Thunk.force fuel i s = some (.ok g, s')) :
    s'.stateAt i = some (.Forced g) := by
  cases fuel with
  | zero => rw [Thunk.force, step_zero] at h; cases h
  | succ fuel =>
    rw [Thunk.force] at h
    cases hget : s.store.elements[i]? with
    | none => rw [step_forceT_none fuel hget] at h; cases h
    | some t =>
      cases hst : t.state with
      | Unforced v =>
        rw [step_forceT_Unforced fuel hget hst] at h
        split at h
        · cases h
        · simp at h
        · next g₂ s₂ heq =>
            obtain ⟨rfl, rfl⟩ : g₂ = g ∧ s₂.setThunk i (.Forced g₂) = s' := by
              simpa using h
            have hp := step_pres fuel (.evalV v) (s.setThunk i .Forcing) _ _ heq
            have hsent : (s.setThunk i .Forcing).stateAt i = some .Forcing :=
              ExecState.setThunk_stateAt_self _ hget
            obtain ⟨t₂, ht₂, -⟩ := exists_of_stateAt (hp.2.2.1 i hsent)
            exact ExecState.setThunk_stateAt_self _ ht₂
      | Forcing => rw [step_forceT_Forcing fuel hget hst] at h; simp at h
      | Forced g₀ =>
        rw [step_forceT_Forced fuel hget hst] at h
        obtain ⟨rfl, rfl⟩ : g₀ = g ∧ (s.setThunk i .Forcing).setThunk i (.Forced g₀) = s' := by
          simpa using h
        rw [setThunk_roundtrip_Forced hget hst, stateAt_of_getElem hget, hst]

/-- A failed force leaves its slot `Forcing` and keeps every slot's debug info. -/
theorem force_error_stateAt {fuel i : Nat} {s : ExecState} {e : ExecutionError}
    {s' : ExecState} (h : Thunk.force fuel i s = some (.error e, s')) :
    s'.stateAt i = some .Forcing ∧ ∀ j, s'.debugAt j = s.debugAt j := by
  cases fuel with
  | zero => rw [Thunk.force, step_zero] at h; cases h
  | succ fuel =>
    rw [Thunk.force] at h
    cases hget : s.store.elements[i]? with
    | none => rw [step_forceT_none fuel hget] at h; cases h
    | some t =>
      cases hst : t.state with
      | Unforced v =>
        rw [step_forceT_Unforced fuel hget hst] at h
        split at h
        · cases h
        · next e₂ s₂ heq =>
            obtain ⟨-, rfl⟩ : Except.error e₂ = Except.error (α := GraphValue) e ∧ s₂ = s' := by
              simpa using h
            have hp := step_pres fuel (.evalV v) (s.setThunk i .Forcing) _ _ heq
            have hsent : (s.setThunk i .Forcing).stateAt i = some .Forcing :=
              ExecState.setThunk_stateAt_self _ hget
            refine ⟨hp.2.2.1 i hsent, fun j => ?_⟩
            rw [hp.2.1 j, ExecState.setThunk_debugAt]
        · simp at h
      | Forcing =>
        rw [step_forceT_Forcing fuel hget hst] at h
        obtain ⟨-, rfl⟩ : _ ∧ s.setThunk i .Forcing = s' := by simpa using h
        rw [setThunk_roundtrip_Forcing hget hst]
        exact ⟨by rw [stateAt_of_getElem hget, hst], fun j => rfl⟩
      | Forced g₀ => rw [step_forceT_Forced fuel hget hst] at h; simp at h

/-- Forcing a thunk whose slot is already `Forcing` reports the cycle with the
thunk's own debug info and leaves the state untouched. -/
theorem force_of_forcing {i : Nat} {s : ExecState} {t : Thunk} (fuel : Nat)
    (hget : s.store.elements[i]? = some t) (hst : t.state = .Forcing) :
    Thunk.force (fuel + 1) i s =
      some (.error (.RecursivelyDefinedVariable t.debug_info.display), s) := by
  rw [Thunk.force, step_forceT_Forcing fuel hget hst, setThunk_roundtrip_Forcing hget hst]

/-- `LazyStore::evaluate` on a slot already `Forcing` reports the cycle
wrapped with the slot's debug info. -/
theorem storeEvaluate_of_forcing {i : Nat} {s : ExecState} {t : Thunk} (fuel : Nat)
    (hget : s.store.elements[i]? = some t) (hst : t.state = .Forcing) :
    LazyStore.evaluate (fuel + 2) i s =
      some (.error (.InContext (.stmt t.debug_info.ctx)
        (.RecursivelyDefinedVariable t.debug_info.display)), s) := by
  rw [LazyStore.evaluate, step_storeEval_some (fuel + 1) hget]
  rw [show step (fuel + 1) (.forceT i) s = Thunk.force (fuel + 1) i s from rfl]
  rw [force_of_forcing fuel hget hst]

/-- A successful `LazyStore::evaluate` is a successful force of the slot. -/
theorem storeEvaluate_ok_elim {fuel i : Nat} {s : ExecState} {g : GraphValue}
    {s' : ExecState} (h : LazyStore.evaluate fuel i s = some (.ok g, s')) :
    ∃ t, s.store.elements[i]? = some t ∧ Thunk.force (fuel - 1) i s = some (.ok g, s') := by
  cases fuel with
  | zero => rw [LazyStore.evaluate, step_zero] at h; cases h
  | succ fuel =>
    rw [LazyStore.evaluate] at h
    cases hget : s.store.elements[i]? with
    | none => rw [step_storeEval_none fuel hget] at h; cases h
    | some t =>
      rw [step_storeEval_some fuel hget] at h
      refine ⟨t, rfl, ?_⟩
      split at h
      · cases h
      · simp at h
      · next heq =>
          obtain ⟨rfl, rfl⟩ : _ = g ∧ _ = s' := by simpa using h
          simpa [Thunk.force] using heq

/-- C1: Force is memoising and idempotent: if `evaluate(h)` succeeds with
value `g`, the handle's thunk is left in state `Forced(g)`, and a second
`evaluate(h)` (with any fuel at all, since the `Forced` branch returns `g`
directly without entering the LazyValue evaluator) succeeds, returns the same
value `g` and returns the state unchanged — in particular the injected
evaluator-invocation counter of the resulting state is still that of `s'`, so
the evaluator is not invoked again. -/
theorem C1_force_memoising_idempotent (fuel h : Nat) (s : ExecState) (g : GraphValue)
    (s' : ExecState) (hev : LazyStore.evaluate fuel h s = some (.ok g, s')) :
    s'.stateAt h = some (.Forced g) ∧
    ∀ extra, LazyStore.evaluate (extra + 2) h s' = some (.ok g, s') := by
  obtain ⟨t, hget, hforce⟩ := storeEvaluate_ok_elim hev
  have hforced : s'.stateAt h = some (.Forced g) := force_ok_stateAt hforce
  refine ⟨hforced, fun extra => ?_⟩
  obtain ⟨t', hget', hst'⟩ := exists_of_stateAt hforced
  rw [LazyStore.evaluate, step_storeEval_some (extra + 1) hget']
  rw [show step (extra + 1) (.forceT h) s' = Thunk.force (extra + 1) h s' from rfl]
  rw [Thunk.force, step_forceT_Forced extra hget' hst',
    setThunk_roundtrip_Forced hget' hst']

/-- Concrete memoisation run: a store with one thunk returning the value 7;
after one successful evaluation the slot is `Forced` and re-evaluation
returns the same value and state. -/
def memoState : ExecState :=
  ⟨⟨[⟨.Unforced (.const (.data 7)), ⟨⟨3⟩⟩⟩]⟩, 0⟩

/-- Result state of the concrete memoisation run. -/
def memoStateAfter : ExecState := ⟨⟨[⟨.Forced (.data 7), ⟨⟨3⟩⟩⟩]⟩, 1⟩

theorem C1_force_memoising_idempotent_witness :
    memoStateAfter.stateAt 0 = some (.Forced (.data 7)) ∧
    LazyStore.evaluate 5 0 memoStateAfter = some (.ok (.data 7), memoStateAfter) :=
  ⟨(C1_force_memoising_idempotent 4 0 memoState (.data 7) memoStateAfter (by decide)).1,
   (C1_force_memoising_idempotent 4 0 memoState (.data 7) memoStateAfter (by decide)).2 3⟩

/-- C2: thunk cycle detection.  While `h`'s thunk is being forced its slot
holds the `Forcing` sentinel (second conjunct, first part), errors of the
nested evaluation propagate out of the force (second conjunct, second part),
and any nested force of `h` that observes the sentinel fails with
`RecursivelyDefinedVariable` carrying the debug info attached to `h`'s thunk,
which `evaluate(h)` additionally wraps in that same debug context (first
conjunct). -/
theorem C2_thunk_cycle_detection (fuel h : Nat) (s : ExecState) (d : DebugInfo)
    (hd : s.debugAt h = some d) :
    (s.stateAt h = some .Forcing →
      Thunk.force (fuel + 1) h s =
        some (.error (.RecursivelyDefinedVariable d.display), s) ∧
      LazyStore.evaluate (fuel + 2) h s =
        some (.error (.InContext (.stmt d.ctx) (.RecursivelyDefinedVariable d.display)),
          s)) ∧
    (∀ v, s.stateAt h = some (.Unforced v) →
      (s.setThunk h .Forcing).stateAt h = some .Forcing ∧
      ∀ e s₂, LazyValue.evaluate fuel v (s.setThunk h .Forcing) = some (.error e, s₂) →
        Thunk.force (fuel + 1) h s = some (.error e, s₂)) := by
  obtain ⟨t, hget, hdt⟩ : ∃ t, s.store.elements[h]? = some t ∧ t.debug_info = d := by
    simpa [ExecState.debugAt, Option.map_eq_some'] using hd
  constructor
  · intro hforcing
    have hst : t.state = .Forcing := by
      rw [stateAt_of_getElem hget] at hforcing
      exact Option.some_inj.mp hforcing
    constructor
    · rw [force_of_forcing fuel hget hst, hdt]
    · rw [storeEvaluate_of_forcing fuel hget hst, hdt]
  · intro v hunf
    have hst : t.state = .Unforced v := by
      rw [stateAt_of_getElem hget] at hunf
      exact Option.some_inj.mp hunf
    refine ⟨ExecState.setThunk_stateAt_self _ hget, fun e s₂ hev => ?_⟩
    rw [Thunk.force, step_forceT_Unforced fuel hget hst]
    rw [show step fuel (.evalV v) (s.setThunk h .Forcing) =
      LazyValue.evaluate fuel v (s.setThunk h .Forcing) from rfl, hev]

/-- Concrete self-cycle: slot 0's LazyValue re-forces handle 0. -/
def cycleState : ExecState := ⟨⟨[⟨.Unforced (.load 0), ⟨⟨7⟩⟩⟩]⟩, 0⟩

/-- The same store while slot 0 is being forced (sentinel in place). -/
def cycleForcing : ExecState := ⟨⟨[⟨.Forcing, ⟨⟨7⟩⟩⟩]⟩, 0⟩

/-- Error produced by the nested force of the self-cycle. -/
def cycleErr : ExecutionError :=
  .InContext (.stmt ⟨7⟩) (.RecursivelyDefinedVariable (DebugInfo.display ⟨⟨7⟩⟩))

/-- State in which the self-cycle run ends. -/
def cycleAfter : ExecState := ⟨⟨[⟨.Forcing, ⟨⟨7⟩⟩⟩]⟩, 1⟩

theorem C2_thunk_cycle_detection_witness :
    (Thunk.force 4 0 cycleForcing =
      some (.error (.RecursivelyDefinedVariable (DebugInfo.display ⟨⟨7⟩⟩)), cycleForcing) ∧
     LazyStore.evaluate 5 0 cycleForcing =
      some (.error (.InContext (.stmt ⟨7⟩)
        (.RecursivelyDefinedVariable (DebugInfo.display ⟨⟨7⟩⟩))), cycleForcing)) ∧
    ((cycleState.setThunk 0 .Forcing).stateAt 0 = some .Forcing ∧
     Thunk.force 4 0 cycleState = some (.error cycleErr, cycleAfter)) :=
  ⟨(C2_thunk_cycle_detection 3 0 cycleForcing ⟨⟨7⟩⟩ (by decide)).1 (by decide),
   ⟨((C2_thunk_cycle_detection 3 0 cycleState ⟨⟨7⟩⟩ (by decide)).2 (.load 0) (by decide)).1,
    ((C2_thunk_cycle_detection 3 0 cycleState ⟨⟨7⟩⟩ (by decide)).2 (.load 0)
      (by decide)).2 cycleErr cycleAfter (by decide)⟩⟩

/-- C5: no restore on failed force.  If a force returns an error, the thunk's
slot is left `Forcing` (neither `Unforced` is restored nor `Forced` written),
all debug info is kept, and a subsequent force of the same thunk observes
`Forcing` and reports `RecursivelyDefinedVariable` with the thunk's debug info
even when the original failure was not a cycle. -/
theorem C5_no_restore_on_failed_force (fuel h : Nat) (s : ExecState)
    (e : ExecutionError) (s' : ExecState)
    (hf : Thunk.force fuel h s = some (.error e, s')) :
    s'.stateAt h = some .Forcing ∧ (∀ j, s'.debugAt j = s.debugAt j) ∧
    ∀ extra d, s.debugAt h = some d →
      Thunk.force (extra + 1) h s' =
        some (.error (.RecursivelyDefinedVariable d.display), s') ∧
      LazyStore.evaluate (extra + 2) h s' =
        some (.error (.InContext (.stmt d.ctx)
          (.RecursivelyDefinedVariable d.display)), s') := by
  obtain ⟨hforcing, hdebug⟩ := force_error_stateAt hf
  refine ⟨hforcing, hdebug, fun extra d hd => ?_⟩
  obtain ⟨t', hget', hst'⟩ := exists_of_stateAt hforcing
  have hdt' : t'.debug_info = d := by
    have := (hdebug h).trans hd
    rw [debugAt_of_getElem hget'] at this
    exact Option.some_inj.mp this
  constructor
  · rw [force_of_forcing extra hget' hst', hdt']
  · rw [storeEvaluate_of_forcing extra hget' hst', hdt']

/-- Concrete non-cycle failure: slot 0 fails with an evaluator error, after
which re-forcing mis-diagnoses a cycle. -/
def failState : ExecState := ⟨⟨[⟨.Unforced (.fail (.Other "boom")), ⟨⟨5⟩⟩⟩]⟩, 0⟩

/-- State after the failed force of `failState`'s slot 0. -/
def failAfter : ExecState := ⟨⟨[⟨.Forcing, ⟨⟨5⟩⟩⟩]⟩, 1⟩

theorem C5_no_restore_on_failed_force_witness :
    failAfter.stateAt 0 = some .Forcing ∧
    Thunk.force 3 0 failAfter =
      some (.error (.RecursivelyDefinedVariable (DebugInfo.display ⟨⟨5⟩⟩)), failAfter) :=
  ⟨(C5_no_restore_on_failed_force 3 0 failState (.Other "boom") failAfter (by decide)).1,
   ((C5_no_restore_on_failed_force 3 0 failState (.Other "boom") failAfter
      (by decide)).2.2 2 ⟨⟨5⟩⟩ (by decide)).1⟩

/-- C7: `Store::add` postcondition: it is total (it cannot fail, as its type
shows), the returned handle's index is the pre-append length, and the store
gains exactly one `Unforced` thunk carrying the given debug info at the end,
growing by one. -/
theorem C7_add_postcondition (s : LazyStore) (value : LazyValue) (d : DebugInfo) :
    (s.add value d).1.store_location = s.elements.length ∧
    (s.add value d).2.elements = s.elements ++ [⟨.Unforced value, d⟩] ∧
    (s.add value d).2.elements.length = s.elements.length + 1 := by
  refine ⟨rfl, rfl, ?_⟩
  simp [LazyStore.add]

theorem evaluate_allAux_zero (fuel i : Nat) (s : ExecState) :
    LazyStore.evaluate_allAux fuel 0 i s = some (.ok (), s) := rfl

theorem evaluate_allAux_succ_none {s : ExecState} {i : Nat} (fuel n : Nat)
    (h : s.store.elements[i]? = none) :
    LazyStore.evaluate_allAux fuel (n + 1) i s = none := by
  simp only [LazyStore.evaluate_allAux, h]

theorem evaluate_allAux_succ_some {s : ExecState} {i : Nat} {t : Thunk} (fuel n : Nat)
    (h : s.store.elements[i]? = some t) :
    LazyStore.evaluate_allAux fuel (n + 1) i s =
      match Thunk.force fuel i s with
      | none => none
      | some (.error e, s') => some (.error (.InContext (.stmt t.debug_info.ctx) e), s')
      | some (.ok _, s') => LazyStore.evaluate_allAux fuel n (i + 1) s' := by
  simp only [LazyStore.evaluate_allAux, h]

/-- Every run of the `evaluate_all` loop preserves the slot invariant. -/
theorem evaluate_allAux_pres (fuel : Nat) :
    ∀ (n i : Nat) (s : ExecState) (r : Except ExecutionError Unit) (s' : ExecState),
      LazyStore.evaluate_allAux fuel n i s = some (r, s') → StatePres s s' := by
  intro n
  induction n with
  | zero =>
    intro i s r s' h
    obtain ⟨-, rfl⟩ : Except.ok () = r ∧ s = s' := by
      simpa [LazyStore.evaluate_allAux] using h
    exact StatePres.refl s
  | succ n ih =>
    intro i s r s' h
    cases hget : s.store.elements[i]? with
    | none => rw [evaluate_allAux_succ_none fuel n hget] at h; cases h
    | some t =>
      rw [evaluate_allAux_succ_some fuel n hget] at h
      split at h
      · cases h
      · next heq =>
          obtain ⟨-, rfl⟩ : _ ∧ _ = s' := by simpa using h
          exact step_pres fuel (.forceT i) s _ _ heq
      · next heq =>
          exact (step_pres fuel (.forceT i) s _ _ heq).trans (ih _ _ _ _ h)

/-- C8: handle stability.  `add` only grows the element vector (so any index
below the old length is below the new one, and the handle it returns is in
bounds), `evaluate` and `evaluate_all` never change the number of slots, and
for every handle whose index is below the store length the slot lookup done by
`Store::evaluate` is in bounds. -/
theorem C8_handle_stability :
    (∀ (st : LazyStore) (value : LazyValue) (d : DebugInfo) (h : LazyVariable),
      h.store_location < st.elements.length →
      h.store_location < (st.add value d).2.elements.length) ∧
    (∀ (st : LazyStore) (value : LazyValue) (d : DebugInfo),
      (st.add value d).1.store_location < (st.add value d).2.elements.length) ∧
    (∀ (fuel i : Nat) (s : ExecState) (r : Except ExecutionError GraphValue)
      (s' : ExecState), LazyStore.evaluate fuel i s = some (r, s') →
      s'.store.elements.length = s.store.elements.length) ∧
    (∀ (fuel : Nat) (s : ExecState) (r : Except ExecutionError Unit) (s' : ExecState),
      LazyStore.evaluate_all fuel s = some (r, s') →
      s'.store.elements.length = s.store.elements.length) ∧
    (∀ (s : ExecState) (h : LazyVariable), h.store_location < s.store.elements.length →
      (s.store.elements[h.store_location]?).isSome) := by
  refine ⟨?_, ?_, ?_, ?_, ?_⟩
  · intro st value d h hlt
    simp only [LazyStore.add, List.length_append, List.length_cons, List.length_nil]
    omega
  · intro st value d
    simp [LazyStore.add]
  · intro fuel i s r s' h
    exact (step_pres fuel (.storeEval i) s r s' h).1
  · intro fuel s r s' h
    exact (evaluate_allAux_pres fuel _ _ s r s' h).1
  · intro s h hlt
    simp [List.getElem?_eq_getElem hlt]

theorem C8_handle_stability_witness :
    (0 : Nat) < (LazyStore.add ⟨[⟨.Unforced (.const (.data 1)), ⟨⟨0⟩⟩⟩]⟩
      (.const (.data 2)) ⟨⟨1⟩⟩).2.elements.length ∧
    (memoState.store.elements[0]?).isSome :=
  ⟨C8_handle_stability.1 ⟨[⟨.Unforced (.const (.data 1)), ⟨⟨0⟩⟩⟩]⟩
      (.const (.data 2)) ⟨⟨1⟩⟩ ⟨0⟩ (by decide),
   C8_handle_stability.2.2.2.2 memoState ⟨0⟩ (by decide)⟩

/-- Case analysis of the `evaluate_all` loop: on success every visited slot is
left `Forced`; on failure there is a first failing slot, all earlier slots
having been forced successfully in insertion order, and the returned error is
that slot's force error wrapped with the slot's debug info as context. -/
theorem evaluate_allAux_cases (fuel : Nat) :
    ∀ (n i : Nat) (s : ExecState) (r : Except ExecutionError Unit) (s' : ExecState),
      LazyStore.evaluate_allAux fuel n i s = some (r, s') →
      (r = .ok () → ∀ j, i ≤ j → j < i + n → ∃ g, s'.stateAt j = some (.Forced g)) ∧
      (∀ e, r = .error e → ∃ m t e₀ sk, m < n ∧
        LazyStore.evaluate_allAux fuel m i s = some (.ok (), sk) ∧
        sk.store.elements[i + m]? = some t ∧
        Thunk.force fuel (i + m) sk = some (.error e₀, s') ∧
        e = .InContext (.stmt t.debug_info.ctx) e₀) := by
  intro n
  induction n with
  | zero =>
    intro i s r s' h
    obtain ⟨rfl, rfl⟩ : Except.ok () = r ∧ s = s' := by
      simpa [LazyStore.evaluate_allAux] using h
    refine ⟨fun _ j hij hj => absurd hj (by omega), fun e he => ?_⟩
    cases he
  | succ n ih =>
    intro i s r s' h
    cases hget : s.store.elements[i]? with
    | none => rw [evaluate_allAux_succ_none fuel n hget] at h; cases h
    | some t =>
      rw [evaluate_allAux_succ_some fuel n hget] at h
      split at h
      · cases h
      · next e₀ s₂ heq =>
          obtain ⟨he, rfl⟩ :
              Except.error (.InContext (.stmt t.debug_info.ctx) e₀) = r ∧ s₂ = s' := by
            simpa using h
          refine ⟨fun hok => ?_, fun e her => ?_⟩
          · rw [← he] at hok; cases hok
          · refine ⟨0, t, e₀, s, by omega, rfl, by simpa using hget,
              by simpa using heq, ?_⟩
            rw [← he] at her
            exact (Except.error.inj her).symm ▸ rfl
      · next g s₂ heq =>
          obtain ⟨hok, herr⟩ := ih (i + 1) s₂ r s' h
          refine ⟨fun hr j hij hj => ?_, fun e her => ?_⟩
          · rcases Decidable.em (j = i) with rfl | hne
            · have hforced := force_ok_stateAt heq
              have hp := evaluate_allAux_pres fuel n (j + 1) s₂ r s' h
              exact ⟨g, hp.2.2.2 j g hforced⟩
            · exact hok hr j (by omega) (by omega)
          · obtain ⟨m, t', e₀, sk, hm, hrun, hget', hforce', he⟩ := herr e her
            refine ⟨m + 1, t', e₀, sk, by omega, ?_, ?_, ?_, he⟩
            · rw [evaluate_allAux_succ_some fuel m hget, heq]
              exact hrun
            · rw [show i + (m + 1) = i + 1 + m by omega]
              exact hget'
            · rw [show i + (m + 1) = i + 1 + m by omega]
              exact hforce'

/-- C6: `evaluate_all` forces the slots in insertion order and stops at the
first error: on success every slot of the store ends up `Forced`; on failure
there is a slot index `k` such that the forces of all slots below `k`
succeeded first (in ascending index order, each possibly forcing later slots
through dependencies), the force of slot `k` failed, and the returned error is
that failure wrapped with slot `k`'s debug info as context — so the reported
failure is the lowest-index failing slot modulo earlier dependency forcing. -/
theorem C6_evaluate_all_insertion_order (fuel : Nat) (s : ExecState)
    (r : Except ExecutionError Unit) (s' : ExecState)
    (h : LazyStore.evaluate_all fuel s = some (r, s')) :
    (r = .ok () → ∀ j, j < s.store.elements.length →
      ∃ g, s'.stateAt j = some (.Forced g)) ∧
    (∀ e, r = .error e → ∃ k t e₀ sk, k < s.store.elements.length ∧
      LazyStore.evaluate_allAux fuel k 0 s = some (.ok (), sk) ∧
      sk.store.elements[k]? = some t ∧
      Thunk.force fuel k sk = some (.error e₀, s') ∧
      e = .InContext (.stmt t.debug_info.ctx) e₀) := by
  rw [LazyStore.evaluate_all] at h
  obtain ⟨hok, herr⟩ := evaluate_allAux_cases fuel s.store.elements.length 0 s r s' h
  refine ⟨fun hr j hj => hok hr j (by omega) (by omega), fun e her => ?_⟩
  obtain ⟨m, t, e₀, sk, hm, hrun, hget, hforce, he⟩ := herr e her
  exact ⟨m, t, e₀, sk, by omega, hrun, by simpa using hget, by simpa using hforce, he⟩

/-- Concrete bulk run that succeeds: two independent thunks. -/
def bulkOk : ExecState :=
  ⟨⟨[⟨.Unforced (.const (.data 1)), ⟨⟨0⟩⟩⟩, ⟨.Unforced (.const (.data 2)), ⟨⟨1⟩⟩⟩]⟩, 0⟩

/-- End state of the successful bulk run: every slot `Forced`. -/
def bulkOkAfter : ExecState :=
  ⟨⟨[⟨.Forced (.data 1), ⟨⟨0⟩⟩⟩, ⟨.Forced (.data 2), ⟨⟨1⟩⟩⟩]⟩, 2⟩

/-- Concrete bulk run that fails at slot 1 after slot 0 succeeded. -/
def bulkErr : ExecState :=
  ⟨⟨[⟨.Unforced (.const (.data 1)), ⟨⟨0⟩⟩⟩, ⟨.Unforced (.fail (.Other "x")), ⟨⟨1⟩⟩⟩]⟩, 0⟩

/-- End state of the failing bulk run: slot 1 is stuck `Forcing`. -/
def bulkErrAfter : ExecState :=
  ⟨⟨[⟨.Forced (.data 1), ⟨⟨0⟩⟩⟩, ⟨.Forcing, ⟨⟨1⟩⟩⟩]⟩, 2⟩

theorem C6_evaluate_all_insertion_order_witness :
    (∃ g, bulkOkAfter.stateAt 1 = some (.Forced g)) ∧
    (∃ k t e₀ sk, k < bulkErr.store.elements.length ∧
      LazyStore.evaluate_allAux 9 k 0 bulkErr = some (.ok (), sk) ∧
      sk.store.elements[k]? = some t ∧
      Thunk.force 9 k sk = some (.error e₀, bulkErrAfter) ∧
      (ExecutionError.InContext (.stmt ⟨1⟩) (.Other "x")) =
        .InContext (.stmt t.debug_info.ctx) e₀) :=
  ⟨(C6_evaluate_all_insertion_order 9 bulkOk (.ok ()) bulkOkAfter (by decide)).1
      rfl 1 (by decide),
   (C6_evaluate_all_insertion_order 9 bulkErr
      (.error (.InContext (.stmt ⟨1⟩) (.Other "x"))) bulkErrAfter (by decide)).2 _ rfl⟩

/-! Association-list lemmas for the scoped-variable container. -/

theorem assocGet_setCellList_self (l : List (Identifier × ScopedValues))
    (name : Identifier) (v : ScopedValues) :
    assocGet (setCellList l name v) name = some v := by
  induction l with
  | nil => simp [setCellList, assocGet]
  | cons hd tl ih =>
    by_cases hn : hd.1 = name
    · simp [setCellList, hn, assocGet]
    · simp [setCellList, hn, assocGet, ih]

theorem assocGet_setCellList_ne (l : List (Identifier × ScopedValues))
    (name n' : Identifier) (v : ScopedValues) (h : n' ≠ name) :
    assocGet (setCellList l name v) n' = assocGet l n' := by
  induction l with
  | nil => simp [setCellList, assocGet, Ne.symm h]
  | cons hd tl ih =>
    by_cases hn : hd.1 = name
    · simp [setCellList, hn, assocGet, Ne.symm h]
    · by_cases hn' : hd.1 = n'
      · simp [setCellList, hn, assocGet, hn', h]
      · simp [setCellList, hn, assocGet, hn', ih]

theorem getCell_setCell_self (vars : LazyScopedVariables) (name : Identifier)
    (v : ScopedValues) : (vars.setCell name v).getCell? name = some v := by
  simp [LazyScopedVariables.getCell?, LazyScopedVariables.setCell,
    assocGet_setCellList_self]

theorem getCell_setCell_ne (vars : LazyScopedVariables) (name n' : Identifier)
    (v : ScopedValues) (h : n' ≠ name) :
    (vars.setCell name v).getCell? n' = vars.getCell? n' := by
  simp [LazyScopedVariables.getCell?, LazyScopedVariables.setCell,
    assocGet_setCellList_ne _ _ _ _ h]

theorem assocGet_isSome_iff_mem {κ α : Type} [DecidableEq κ]
    (l : List (κ × α)) (k : κ) : (assocGet l k).isSome ↔ k ∈ l.map Prod.fst := by
  induction l with
  | nil => simp [assocGet]
  | cons hd tl ih =>
    by_cases h : hd.1 = k
    · simp [assocGet, h]
    · rw [List.map_cons, List.mem_cons]
      simp only [assocGet, if_neg h]
      rw [ih]
      constructor
      · exact fun hm => Or.inr hm
      · intro hm
        rcases hm with hk | hm'
        · exact absurd hk.symm h
        · exact hm'

/-! Unfolding lemmas for `LazyScopedVariables::add`. -/

theorem scoped_add_absent {vars : LazyScopedVariables} {name : Identifier}
    (scope value : LazyValue) (d : DebugInfo) (h : vars.getCell? name = none) :
    vars.add scope name value d =
      (.ok (), vars.setCell name (.Unforced [(scope, value, d)])) := by
  simp [LazyScopedVariables.add, h, ScopedValues.new]

theorem scoped_add_Unforced {vars : LazyScopedVariables} {name : Identifier}
    {ps : List (LazyValue × LazyValue × DebugInfo)}
    (scope value : LazyValue) (d : DebugInfo)
    (h : vars.getCell? name = some (.Unforced ps)) :
    vars.add scope name value d =
      (.ok (), vars.setCell name (.Unforced (ps ++ [(scope, value, d)]))) := by
  simp [LazyScopedVariables.add, h]

theorem scoped_add_Forcing {vars : LazyScopedVariables} {name : Identifier}
    (scope value : LazyValue) (d : DebugInfo)
    (h : vars.getCell? name = some .Forcing) :
    vars.add scope name value d =
      (.error (.RecursivelyDefinedScopedVariable name), vars.setCell name .Forcing) := by
  simp [LazyScopedVariables.add, h]

theorem scoped_add_Forced {vars : LazyScopedVariables} {name : Identifier}
    {m : List (SyntaxNodeRef × LazyValue)} (scope value : LazyValue) (d : DebugInfo)
    (h : vars.getCell? name = some (.Forced m)) :
    vars.add scope name value d =
      (.error (.VariableScopesAlreadyForced name), vars.setCell name (.Forced m)) := by
  simp [LazyScopedVariables.add, h]

theorem scoped_evaluate_absent {vars : LazyScopedVariables} {name : Identifier}
    (fuel : Nat) (scope : SyntaxNodeRef) (s : ExecState)
    (h : vars.getCell? name = none) :
    LazyScopedVariables.evaluate fuel vars scope name s =
      some (.error (.UndefinedScopedVariable (toString scope ++ "." ++ name)),
        vars, s) := by
  simp only [LazyScopedVariables.evaluate, h]

theorem scoped_evaluate_present {vars : LazyScopedVariables} {name : Identifier}
    {values : ScopedValues} (fuel : Nat) (scope : SyntaxNodeRef) (s : ExecState)
    (h : vars.getCell? name = some values) :
    LazyScopedVariables.evaluate fuel vars scope name s =
      match LazyScopedVariables.force fuel name values s with
      | none => none
      | some (.error e, s') => some (.error e, vars.setCell name .Forcing, s')
      | some (.ok map, s') =>
        match assocGet map scope with
        | none =>
          some (.error (.UndefinedScopedVariable (toString scope ++ "." ++ name)),
            vars.setCell name .Forcing, s')
        | some result =>
          some (.ok result, (vars.setCell name .Forcing).setCell name (.Forced map), s') := by
  simp only [LazyScopedVariables.evaluate, h]

/-- Elimination of a successful `LazyScopedVariables::evaluate`. -/
theorem scoped_evaluate_ok_elim {fuel : Nat} {vars : LazyScopedVariables}
    {scope : SyntaxNodeRef} {name : Identifier} {s : ExecState} {v' : LazyValue}
    {vars' : LazyScopedVariables} {s' : ExecState}
    (h : LazyScopedVariables.evaluate fuel vars scope name s = some (.ok v', vars', s')) :
    ∃ values map, vars.getCell? name = some values ∧
      LazyScopedVariables.force fuel name values s = some (.ok map, s') ∧
      assocGet map scope = some v' ∧
      vars' = (vars.setCell name .Forcing).setCell name (.Forced map) := by
  cases hget : vars.getCell? name with
  | none => rw [scoped_evaluate_absent fuel scope s hget] at h; simp at h
  | some values =>
    rw [scoped_evaluate_present fuel scope s hget] at h
    split at h
    · cases h
    · simp at h
    · next map s₂ heq =>
        split at h
        · simp at h
        · next v₂ hmap =>
            obtain ⟨rfl, rfl, rfl⟩ : v₂ = v' ∧
                (vars.setCell name .Forcing).setCell name (.Forced map) = vars' ∧
                s₂ = s' := by simpa using h
            exact ⟨values, map, rfl, heq, hmap, rfl⟩

theorem scoped_evaluate_allAux_cons_none {vars : LazyScopedVariables} {n0 : Identifier}
    (fuel : Nat) (rest : List Identifier) (s : ExecState)
    (h : vars.getCell? n0 = none) :
    LazyScopedVariables.evaluate_allAux fuel (n0 :: rest) vars s = none := by
  simp only [LazyScopedVariables.evaluate_allAux, h]

theorem scoped_evaluate_allAux_cons_some {vars : LazyScopedVariables} {n0 : Identifier}
    {values : ScopedValues} (fuel : Nat) (rest : List Identifier) (s : ExecState)
    (h : vars.getCell? n0 = some values) :
    LazyScopedVariables.evaluate_allAux fuel (n0 :: rest) vars s =
      match LazyScopedVariables.force fuel n0 values s with
      | none => none
      | some (.error e, s') => some (.error e, vars.setCell n0 .Forcing, s')
      | some (.ok map, s') =>
        LazyScopedVariables.evaluate_allAux fuel rest
          ((vars.setCell n0 .Forcing).setCell n0 (.Forced map)) s' := by
  simp only [LazyScopedVariables.evaluate_allAux, h]

/-- Successful bulk evaluation of scoped variables seals every cell: `Forced`
cells keep their map, and every processed name ends up `Forced`. -/
theorem scoped_evaluate_allAux_forced (fuel : Nat) :
    ∀ (names : List Identifier) (vars : LazyScopedVariables) (s : ExecState)
      (vars' : LazyScopedVariables) (s' : ExecState),
      LazyScopedVariables.evaluate_allAux fuel names vars s = some (.ok (), vars', s') →
      (∀ name m, vars.getCell? name = some (.Forced m) →
        vars'.getCell? name = some (.Forced m)) ∧
      (∀ name, name ∈ names → ∃ m, vars'.getCell? name = some (.Forced m)) := by
  intro names
  induction names with
  | nil =>
    intro vars s vars' s' h
    obtain ⟨rfl, rfl⟩ : vars = vars' ∧ s = s' := by
      simpa [LazyScopedVariables.evaluate_allAux] using h
    exact ⟨fun name m hm => hm, fun name hmem => absurd hmem (List.not_mem_nil name)⟩
  | cons n0 rest ih =>
    intro vars s vars' s' h
    cases hget : vars.getCell? n0 with
    | none => rw [scoped_evaluate_allAux_cons_none fuel rest s hget] at h; cases h
    | some values =>
      rw [scoped_evaluate_allAux_cons_some fuel rest s hget] at h
      split at h
      · cases h
      · simp at h
      · next map s₂ heq =>
          obtain ⟨hkeep, hall⟩ := ih _ _ _ _ h
          have hn0 : ((vars.setCell n0 .Forcing).setCell n0
              (.Forced map)).getCell? n0 = some (.Forced map) :=
            getCell_setCell_self _ _ _
          refine ⟨fun name m hm => ?_, fun name hmem => ?_⟩
          · rcases Decidable.em (name = n0) with rfl | hne
            · rw [hget] at hm
              obtain rfl : values = ScopedValues.Forced m := Option.some_inj.mp hm
              have : map = m := by
                rw [LazyScopedVariables.force] at heq
                exact (And.left (by simpa using heq.symm : map = m ∧ s₂ = s))
              exact hkeep name map (this ▸ hn0) |>.trans (by rw [this])
            · refine hkeep name m ?_
              rw [getCell_setCell_ne _ _ _ _ hne, getCell_setCell_ne _ _ _ _ hne]
              exact hm
          · rcases List.mem_cons.mp hmem with rfl | hmem'
            · exact ⟨map, hkeep name map hn0⟩
            · exact hall name hmem'

/-- C4: `ScopedStore::add` is a state machine on the name's cell: with no cell
or an `Unforced` cell it appends the triple, leaves the cell `Unforced` and
succeeds; on a `Forcing` cell it fails with
`RecursivelyDefinedScopedVariable(name)`; on a `Forced` cell it fails with
`VariableScopesAlreadyForced(name)`.  Consequently, after a successful
`evaluate(scope, name)` the cell is sealed and every `add` under that name
fails with `VariableScopesAlreadyForced(name)`, and after a successful
`evaluate_all` the same holds for every name present in the container. -/
theorem C4_scoped_add_state_machine (vars : LazyScopedVariables) (scope : LazyValue)
    (name : Identifier) (value : LazyValue) (d : DebugInfo) :
    (vars.getCell? name = none →
      vars.add scope name value d =
        (.ok (), vars.setCell name (.Unforced [(scope, value, d)]))) ∧
    (∀ ps, vars.getCell? name = some (.Unforced ps) →
      vars.add scope name value d =
        (.ok (), vars.setCell name (.Unforced (ps ++ [(scope, value, d)])))) ∧
    (vars.getCell? name = some .Forcing →
      (vars.add scope name value d).1 =
        .error (.RecursivelyDefinedScopedVariable name)) ∧
    (∀ m, vars.getCell? name = some (.Forced m) →
      (vars.add scope name value d).1 = .error (.VariableScopesAlreadyForced name)) ∧
    (∀ fuel scn v' vars' s s',
      LazyScopedVariables.evaluate fuel vars scn name s = some (.ok v', vars', s') →
      (vars'.add scope name value d).1 = .error (.VariableScopesAlreadyForced name)) ∧
    (∀ fuel s vars' s',
      LazyScopedVariables.evaluate_all fuel vars s = some (.ok (), vars', s') →
      ∀ n', (vars.getCell? n').isSome →
        (vars'.add scope n' value d).1 = .error (.VariableScopesAlreadyForced n')) := by
  refine ⟨?_, ?_, ?_, ?_, ?_, ?_⟩
  · intro h; exact scoped_add_absent scope value d h
  · intro ps h; exact scoped_add_Unforced scope value d h
  · intro h; rw [scoped_add_Forcing scope value d h]
  · intro m h; rw [scoped_add_Forced scope value d h]
  · intro fuel scn v' vars' s s' hev
    obtain ⟨values, map, -, -, -, rfl⟩ := scoped_evaluate_ok_elim hev
    rw [scoped_add_Forced scope value d (getCell_setCell_self _ _ _)]
  · intro fuel s vars' s' hall n' hn'
    rw [LazyScopedVariables.evaluate_all] at hall
    obtain ⟨-, hforced⟩ := scoped_evaluate_allAux_forced fuel _ vars s vars' s' hall
    have hmem : n' ∈ vars.cells.map Prod.fst :=
      (assocGet_isSome_iff_mem vars.cells n').mp hn'
    obtain ⟨m, hm⟩ := hforced n' hmem
    rw [scoped_add_Forced scope value d hm]

/-- One-cell scoped container with a pending triple under name `x`. -/
def svU : LazyScopedVariables :=
  ⟨[("x", .Unforced [(.const (.node 1), .const (.data 0), ⟨⟨0⟩⟩)])]⟩

/-- One-cell scoped container whose cell is mid-force. -/
def svForcing : LazyScopedVariables := ⟨[("x", .Forcing)]⟩

/-- One-cell scoped container whose cell is sealed. -/
def svForced : LazyScopedVariables := ⟨[("x", .Forced [(1, .const (.data 0))])]⟩

/-- Execution state with an empty thunk store. -/
def svEmptyState : ExecState := ⟨⟨[]⟩, 0⟩

theorem C4_scoped_add_state_machine_witness :
    (LazyScopedVariables.new.add (.const (.node 1)) "x" (.const (.data 0)) ⟨⟨0⟩⟩ =
      (.ok (), LazyScopedVariables.new.setCell "x"
        (.Unforced [(.const (.node 1), .const (.data 0), ⟨⟨0⟩⟩)]))) ∧
    ((svForcing.add (.const (.node 1)) "x" (.const (.data 0)) ⟨⟨0⟩⟩).1 =
      .error (.RecursivelyDefinedScopedVariable "x")) ∧
    ((svForced.add (.const (.node 1)) "x" (.const (.data 0)) ⟨⟨0⟩⟩).1 =
      .error (.VariableScopesAlreadyForced "x")) ∧
    ((svForced.add (.const (.node 2)) "x" (.const (.data 3)) ⟨⟨1⟩⟩).1 =
      .error (.VariableScopesAlreadyForced "x")) :=
  ⟨(C4_scoped_add_state_machine LazyScopedVariables.new (.const (.node 1)) "x"
      (.const (.data 0)) ⟨⟨0⟩⟩).1 (by decide),
   (C4_scoped_add_state_machine svForcing (.const (.node 1)) "x"
      (.const (.data 0)) ⟨⟨0⟩⟩).2.2.1 (by decide),
   (C4_scoped_add_state_machine svU (.const (.node 1)) "x"
      (.const (.data 0)) ⟨⟨0⟩⟩).2.2.2.2.1 5 1 (.const (.data 0)) svForced
      svEmptyState ⟨⟨[]⟩, 1⟩ (by decide),
   (C4_scoped_add_state_machine svU (.const (.node 2)) "x"
      (.const (.data 3)) ⟨⟨1⟩⟩).2.2.2.2.2 5 svEmptyState svForced ⟨⟨[]⟩, 1⟩
      (by decide) "x" (by decide)⟩

/-- Errors out of the pending-triples loop are always context-wrapped. -/
theorem forcePairs_error_shape (fuel : Nat) (name : Identifier) :
    ∀ (ps : List (LazyValue × LazyValue × DebugInfo))
      (map : List (SyntaxNodeRef × LazyValue)) (dbg : List (SyntaxNodeRef × DebugInfo))
      (s : ExecState) (e : ExecutionError) (s' : ExecState),
      forcePairs fuel name ps map dbg s = some (.error e, s') →
      ∃ c e', e = .InContext c e' := by
  intro ps
  induction ps with
  | nil =>
    intro map dbg s e s' h
    simp [forcePairs] at h
  | cons p rest ih =>
    intro map dbg s e s' h
    obtain ⟨scope, value, debug_info⟩ := p
    cases hev : LazyValue.evaluate_as_syntax_node fuel scope s with
    | none => simp [forcePairs, hev] at h
    | some res =>
      obtain ⟨r, s₂⟩ := res
      cases r with
      | error e₂ =>
        obtain ⟨he, -⟩ :
            ExecutionError.InContext (.stmt debug_info.ctx)
              (.InContext (.msg ("Evaluating scope of variable _." ++ name)) e₂) = e ∧
            s₂ = s' := by simpa [forcePairs, hev] using h
        exact ⟨_, _, he.symm⟩
      | ok node =>
        cases hins : (assocInsert map node value).1 with
        | none =>
          have h' : forcePairs fuel name rest (assocInsert map node value).2
              (assocInsert dbg node debug_info).2 s₂ = some (.error e, s') := by
            simpa [forcePairs, hev, hins] using h
          exact ih _ _ _ _ _ h'
        | some w =>
          cases hpd : (assocInsert dbg node debug_info).1 with
          | none => simp [forcePairs, hev, hins, hpd] at h
          | some prev =>
            obtain ⟨he, -⟩ :
                ExecutionError.InContext (.pair prev.ctx debug_info.ctx)
                  (.DuplicateVariable (toString node ++ "." ++ name)) = e ∧
                s₂ = s' := by simpa [forcePairs, hev, hins, hpd] using h
            exact ⟨_, _, he.symm⟩

/-- Errors out of `LazyScopedVariables::force` are either the scoped-cycle
error or context-wrapped; in particular never a bare
`UndefinedScopedVariable`. -/
theorem scoped_force_error_shape {fuel : Nat} {name : Identifier}
    {values : ScopedValues} {s : ExecState} {e : ExecutionError} {s' : ExecState}
    (h : LazyScopedVariables.force fuel name values s = some (.error e, s')) :
    e = .RecursivelyDefinedScopedVariable ("_." ++ name) ∨
    ∃ c e', e = .InContext c e' := by
  cases values with
  | Unforced ps =>
    exact Or.inr (forcePairs_error_shape fuel name ps [] [] s e s'
      (by simpa [LazyScopedVariables.force] using h))
  | Forcing =>
    refine Or.inl ?_
    have := h
    rw [LazyScopedVariables.force] at this
    exact (And.left (by simpa using this.symm :
      e = ExecutionError.RecursivelyDefinedScopedVariable ("_." ++ name) ∧ s' = s))
  | Forced m =>
    rw [LazyScopedVariables.force] at h
    simp at h

/-- C9: `ScopedStore::evaluate(scope, name)` fails with the bare error
`UndefinedScopedVariable("<scope>.<name>")` exactly when the container has no
cell for `name` (in which case container and state are returned untouched and
no cell is created) or the cell's resolved map has no entry for the scope
node; when the map does have an entry, the bound LazyValue is returned (as a
clone) and the cell sealed. -/
theorem C9_undefined_scoped_variable (fuel : Nat) (vars : LazyScopedVariables)
    (scope : SyntaxNodeRef) (name : Identifier) (s : ExecState) :
    (vars.getCell? name = none →
      LazyScopedVariables.evaluate fuel vars scope name s =
        some (.error (.UndefinedScopedVariable (toString scope ++ "." ++ name)),
          vars, s)) ∧
    (∀ values map s', vars.getCell? name = some values →
      LazyScopedVariables.force fuel name values s = some (.ok map, s') →
      (assocGet map scope = none →
        LazyScopedVariables.evaluate fuel vars scope name s =
          some (.error (.UndefinedScopedVariable (toString scope ++ "." ++ name)),
            vars.setCell name .Forcing, s')) ∧
      (∀ v, assocGet map scope = some v →
        LazyScopedVariables.evaluate fuel vars scope name s =
          some (.ok v, (vars.setCell name .Forcing).setCell name (.Forced map), s'))) ∧
    (∀ w vars' s', LazyScopedVariables.evaluate fuel vars scope name s =
        some (.error (.UndefinedScopedVariable w), vars', s') →
      vars.getCell? name = none ∨
      ∃ values map, vars.getCell? name = some values ∧
        LazyScopedVariables.force fuel name values s = some (.ok map, s') ∧
        assocGet map scope = none) := by
  refine ⟨?_, ?_, ?_⟩
  · intro h; exact scoped_evaluate_absent fuel scope s h
  · intro values map s' hget hforce
    constructor
    · intro hmiss
      simp only [scoped_evaluate_present fuel scope s hget, hforce, hmiss]
    · intro v hhit
      simp only [scoped_evaluate_present fuel scope s hget, hforce, hhit]
  · intro w vars' s' h
    cases hget : vars.getCell? name with
    | none => exact Or.inl rfl
    | some values =>
      rw [scoped_evaluate_present fuel scope s hget] at h
      refine Or.inr ?_
      split at h
      · cases h
      · next e₂ s₂ heq =>
          obtain ⟨he, -, -⟩ : e₂ = ExecutionError.UndefinedScopedVariable w ∧
              vars.setCell name .Forcing = vars' ∧ s₂ = s' := by simpa using h
          rcases scoped_force_error_shape heq with hsh | ⟨c, e', hsh⟩ <;>
            · rw [he] at hsh; cases hsh
      · next map s₂ heq =>
          split at h
          · next hmiss =>
              obtain ⟨-, -, rfl⟩ : _ ∧ vars.setCell name .Forcing = vars' ∧ s₂ = s' := by
                simpa using h
              exact ⟨values, map, rfl, heq, hmiss⟩
          · simp at h

/-- Scoped container and state after the missing-key lookup on `svU`. -/
def svAfterMiss : ExecState := ⟨⟨[]⟩, 1⟩

theorem C9_undefined_scoped_variable_witness :
    (LazyScopedVariables.evaluate 5 LazyScopedVariables.new 2 "y" svEmptyState =
      some (.error (.UndefinedScopedVariable ("2" ++ "." ++ "y")),
        LazyScopedVariables.new, svEmptyState)) ∧
    (LazyScopedVariables.evaluate 5 svU 2 "x" svEmptyState =
      some (.error (.UndefinedScopedVariable ("2" ++ "." ++ "x")),
        svU.setCell "x" .Forcing, svAfterMiss)) ∧
    (LazyScopedVariables.evaluate 5 svU 1 "x" svEmptyState =
      some (.ok (.const (.data 0)),
        (svU.setCell "x" .Forcing).setCell "x"
          (.Forced [(1, .const (.data 0))]), svAfterMiss)) ∧
    (svU.getCell? "x" = none ∨
      ∃ values map, svU.getCell? "x" = some values ∧
        LazyScopedVariables.force 5 "x" values svEmptyState =
          some (.ok map, svAfterMiss) ∧
        assocGet map 2 = none) :=
  ⟨(C9_undefined_scoped_variable 5 LazyScopedVariables.new 2 "y" svEmptyState).1
      (by decide),
   ((C9_undefined_scoped_variable 5 svU 2 "x" svEmptyState).2.1
      (.Unforced [(.const (.node 1), .const (.data 0), ⟨⟨0⟩⟩)])
      [(1, .const (.data 0))] svAfterMiss (by decide) (by decide)).1 (by decide),
   ((C9_undefined_scoped_variable 5 svU 1 "x" svEmptyState).2.1
      (.Unforced [(.const (.node 1), .const (.data 0), ⟨⟨0⟩⟩)])
      [(1, .const (.data 0))] svAfterMiss (by decide) (by decide)).2
      (.const (.data 0)) (by decide),
   (C9_undefined_scoped_variable 5 svU 2 "x" svEmptyState).2.2
      ("2" ++ "." ++ "x") (svU.setCell "x" .Forcing) svAfterMiss (by decide)⟩

/-- C10: when the resolved map lacks the requested scope node, the
`UndefinedScopedVariable` error path of `ScopedStore::evaluate` returns before
`Forced(map)` is written back, so the cell is left `Forcing` and the computed
map is discarded (conjuncts one and two); consequently every later `add` under
that name fails with `RecursivelyDefinedScopedVariable(name)` rather than
`VariableScopesAlreadyForced`, and every later `evaluate` under that name
fails with `RecursivelyDefinedScopedVariable("_.<name>")` rather than doing
the binding lookup (conjuncts three and four). -/
theorem C10_missing_key_leaves_forcing (fuel : Nat) (vars : LazyScopedVariables)
    (scope : SyntaxNodeRef) (name : Identifier) (s : ExecState)
    (values : ScopedValues) (map : List (SyntaxNodeRef × LazyValue)) (s' : ExecState)
    (hget : vars.getCell? name = some values)
    (hforce : LazyScopedVariables.force fuel name values s = some (.ok map, s'))
    (hmiss : assocGet map scope = none) :
    LazyScopedVariables.evaluate fuel vars scope name s =
      some (.error (.UndefinedScopedVariable (toString scope ++ "." ++ name)),
        vars.setCell name .Forcing, s') ∧
    (vars.setCell name .Forcing).getCell? name = some .Forcing ∧
    (∀ sc v' d, ((vars.setCell name .Forcing).add sc name v' d).1 =
      .error (.RecursivelyDefinedScopedVariable name)) ∧
    (∀ fuel' scope' s₂,
      LazyScopedVariables.evaluate fuel' (vars.setCell name .Forcing) scope' name s₂ =
        some (.error (.RecursivelyDefinedScopedVariable ("_." ++ name)),
          (vars.setCell name .Forcing).setCell name .Forcing, s₂)) := by
  have hforcing : (vars.setCell name .Forcing).getCell? name = some .Forcing :=
    getCell_setCell_self _ _ _
  refine ⟨?_, hforcing, fun sc v' d => ?_, fun fuel' scope' s₂ => ?_⟩
  · simp only [scoped_evaluate_present fuel scope s hget, hforce, hmiss]
  · rw [scoped_add_Forcing sc v' d hforcing]
  · simp only [scoped_evaluate_present fuel' scope' s₂ hforcing,
      LazyScopedVariables.force]

theorem C10_missing_key_leaves_forcing_witness :
    LazyScopedVariables.evaluate 5 svU 2 "x" svEmptyState =
      some (.error (.UndefinedScopedVariable ("2" ++ "." ++ "x")),
        svU.setCell "x" .Forcing, svAfterMiss) ∧
    ((svU.setCell "x" .Forcing).add (.const (.node 3)) "x"
      (.const (.data 9)) ⟨⟨2⟩⟩).1 =
      .error (.RecursivelyDefinedScopedVariable "x") ∧
    LazyScopedVariables.evaluate 5 (svU.setCell "x" .Forcing) 2 "x" svEmptyState =
      some (.error (.RecursivelyDefinedScopedVariable ("_." ++ "x")),
        (svU.setCell "x" .Forcing).setCell "x" .Forcing, svEmptyState) :=
  ⟨(C10_missing_key_leaves_forcing 5 svU 2 "x" svEmptyState
      (.Unforced [(.const (.node 1), .const (.data 0), ⟨⟨0⟩⟩)])
      [(1, .const (.data 0))] svAfterMiss (by decide) (by decide) (by decide)).1,
   (C10_missing_key_leaves_forcing 5 svU 2 "x" svEmptyState
      (.Unforced [(.const (.node 1), .const (.data 0), ⟨⟨0⟩⟩)])
      [(1, .const (.data 0))] svAfterMiss (by decide) (by decide) (by decide)).2.2.1
      (.const (.node 3)) (.const (.data 9)) ⟨⟨2⟩⟩,
   (C10_missing_key_leaves_forcing 5 svU 2 "x" svEmptyState
      (.Unforced [(.const (.node 1), .const (.data 0), ⟨⟨0⟩⟩)])
      [(1, .const (.data 0))] svAfterMiss (by decide) (by decide) (by decide)).2.2.2
      5 2 svEmptyState⟩

/-! Machinery for the duplicate-detection claim: the sequence of syntax nodes
the scope expressions of a cell's pending triples evaluate to. -/

theorem assocInsert_fst {κ α : Type} [DecidableEq κ] :
    ∀ (l : List (κ × α)) (k : κ) (v : α), (assocInsert l k v).1 = assocGet l k := by
  intro l
  induction l with
  | nil => intro k v; rfl
  | cons hd tl ih =>
    intro k v
    by_cases h : hd.1 = k
    · simp [assocInsert, assocGet, h]
    · simp [assocInsert, assocGet, h, ih]

theorem assocInsert_snd_of_none {κ α : Type} [DecidableEq κ] :
    ∀ (l : List (κ × α)) (k : κ) (v : α), assocGet l k = none →
      (assocInsert l k v).2 = l ++ [(k, v)] := by
  intro l
  induction l with
  | nil => intro k v _; rfl
  | cons hd tl ih =>
    intro k v h
    by_cases hk : hd.1 = k
    · simp [assocGet, hk] at h
    · simp only [assocGet, if_neg hk] at h
      simp [assocInsert, hk, ih k v h]

theorem assocGet_append {κ α : Type} [DecidableEq κ] :
    ∀ (l₁ l₂ : List (κ × α)) (k : κ),
      assocGet (l₁ ++ l₂) k =
        match assocGet l₁ k with
        | some v => some v
        | none => assocGet l₂ k := by
  intro l₁
  induction l₁ with
  | nil => intro l₂ k; rfl
  | cons hd tl ih =>
    intro l₂ k
    by_cases h : hd.1 = k
    · simp [assocGet, h]
    · simp [assocGet, h, ih]

theorem mem_of_getElem_eq {β : Type} :
    ∀ (l : List β) (i : Nat) (b : β), l[i]? = some b → b ∈ l := by
  intro l
  induction l with
  | nil => intro i b h; simp at h
  | cons hd tl ih =>
    intro i b h
    cases i with
    | zero =>
      obtain rfl : hd = b := by simpa using h
      exact List.mem_cons_self hd tl
    | succ i' =>
      simp only [List.getElem?_cons_succ] at h
      exact List.mem_cons_of_mem hd (ih i' b h)

theorem assocGet_zip_of_nodup {κ α : Type} [DecidableEq κ] :
    ∀ (ks : List κ) (vs : List α) (i : Nat) (k : κ) (v : α), ks.Nodup →
      ks[i]? = some k → vs[i]? = some v → assocGet (ks.zip vs) k = some v := by
  intro ks
  induction ks with
  | nil => intro vs i k v _ hk _; simp at hk
  | cons k₀ ks' ih =>
    intro vs i k v hnodup hk hv
    cases vs with
    | nil => simp at hv
    | cons v₀ vs' =>
      cases i with
      | zero =>
        obtain rfl : k₀ = k := by simpa using hk
        obtain rfl : v₀ = v := by simpa using hv
        simp [List.zip_cons_cons, assocGet]
      | succ i' =>
        simp only [List.getElem?_cons_succ] at hk hv
        have hkmem : k ∈ ks' := mem_of_getElem_eq ks' i' k hk
        have hne : ¬ k₀ = k := by
          intro hc
          exact (List.nodup_cons.mp hnodup).1 (hc ▸ hkmem)
        simp only [List.zip_cons_cons, assocGet, if_neg hne]
        exact ih vs' i' k v (List.nodup_cons.mp hnodup).2 hk hv

/-- Sequential evaluation, in insertion order, of the scope expressions of a
list of pending triples to syntax nodes — exactly the node sequence the
`forcePairs` loop computes while no error and no duplicate occurs. -/
def scopeNodes (fuel : Nat) :
    List (LazyValue × LazyValue × DebugInfo) → ExecState →
    Option (List SyntaxNodeRef × ExecState)
  | [], s => some ([], s)
  | (scope, _, _) :: rest, s =>
    match LazyValue.evaluate_as_syntax_node fuel scope s with
    | some (.ok n, s') =>
      match scopeNodes fuel rest s' with
      | some (ns, s'') => some (n :: ns, s'')
      | none => none
    | _ => none

theorem scopeNodes_length (fuel : Nat) :
    ∀ (ps : List (LazyValue × LazyValue × DebugInfo)) (s : ExecState)
      (ns : List SyntaxNodeRef) (s' : ExecState),
      scopeNodes fuel ps s = some (ns, s') → ns.length = ps.length := by
  intro ps
  induction ps with
  | nil =>
    intro s ns s' h
    obtain ⟨rfl, -⟩ : [] = ns ∧ s = s' := by simpa [scopeNodes] using h
    rfl
  | cons p rest ih =>
    intro s ns s' h
    obtain ⟨scope, value, d⟩ := p
    cases hev : LazyValue.evaluate_as_syntax_node fuel scope s with
    | none => simp [scopeNodes, hev] at h
    | some res =>
      obtain ⟨r, s₂⟩ := res
      cases r with
      | error e => simp [scopeNodes, hev] at h
      | ok n =>
        cases hrest : scopeNodes fuel rest s₂ with
        | none => simp [scopeNodes, hev, hrest] at h
        | some res₂ =>
          obtain ⟨ns₂, s₃⟩ := res₂
          obtain ⟨rfl, -⟩ : n :: ns₂ = ns ∧ s₃ = s' := by
            simpa [scopeNodes, hev, hrest] using h
          simpa using ih s₂ ns₂ s₃ hrest

/-- While the scope expressions of the leading `m` pairs evaluate to fresh,
pairwise-distinct nodes, the `forcePairs` loop accumulates the
`node → value` and `node → debug` bindings in insertion order and continues
with the remaining pairs. -/
theorem forcePairs_accum (fuel : Nat) (name : Identifier) :
    ∀ (m : Nat) (ps : List (LazyValue × LazyValue × DebugInfo))
      (map : List (SyntaxNodeRef × LazyValue)) (dbg : List (SyntaxNodeRef × DebugInfo))
      (s : ExecState) (ns : List SyntaxNodeRef) (s₁ : ExecState),
      scopeNodes fuel (ps.take m) s = some (ns, s₁) →
      m ≤ ps.length →
      (∀ (k : Nat) (nk : SyntaxNodeRef), ns[k]? = some nk →
        assocGet map nk = none ∧ assocGet dbg nk = none) →
      ns.Nodup →
      forcePairs fuel name ps map dbg s =
        forcePairs fuel name (ps.drop m)
          (map ++ ns.zip ((ps.take m).map (fun p => p.2.1)))
          (dbg ++ ns.zip ((ps.take m).map (fun p => p.2.2))) s₁ := by
  intro m
  induction m with
  | zero =>
    intro ps map dbg s ns s₁ hsn hm hfresh hnodup
    obtain ⟨rfl, rfl⟩ : [] = ns ∧ s = s₁ := by simpa [scopeNodes] using hsn
    simp
  | succ m ih =>
    intro ps map dbg s ns s₁ hsn hm hfresh hnodup
    cases ps with
    | nil => exact absurd hm (by simp)
    | cons p rest =>
      obtain ⟨scope, value, d⟩ := p
      rw [List.take_succ_cons] at hsn
      cases hev : LazyValue.evaluate_as_syntax_node fuel scope s with
      | none => simp [scopeNodes, hev] at hsn
      | some res =>
        obtain ⟨r, s₂⟩ := res
        cases r with
        | error e => simp [scopeNodes, hev] at hsn
        | ok n₀ =>
          cases hrest : scopeNodes fuel (rest.take m) s₂ with
          | none => simp [scopeNodes, hev, hrest] at hsn
          | some res₂ =>
            obtain ⟨ns', s₃⟩ := res₂
            obtain ⟨rfl, rfl⟩ : n₀ :: ns' = ns ∧ s₃ = s₁ := by
              simpa [scopeNodes, hev, hrest] using hsn
            obtain ⟨h0map, h0dbg⟩ := hfresh 0 n₀ (by simp)
            have hstep : forcePairs fuel name ((scope, value, d) :: rest) map dbg s =
                forcePairs fuel name rest (map ++ [(n₀, value)]) (dbg ++ [(n₀, d)]) s₂ := by
              simp [forcePairs, hev, assocInsert_fst, h0map,
                assocInsert_snd_of_none map n₀ value h0map,
                assocInsert_snd_of_none dbg n₀ d h0dbg]
            have hnodup' := (List.nodup_cons.mp hnodup).2
            have hnotmem := (List.nodup_cons.mp hnodup).1
            have hfresh' : ∀ (k : Nat) (nk : SyntaxNodeRef), ns'[k]? = some nk →
                assocGet (map ++ [(n₀, value)]) nk = none ∧
                assocGet (dbg ++ [(n₀, d)]) nk = none := by
              intro k nk hk
              obtain ⟨hmapk, hdbgk⟩ := hfresh (k + 1) nk (by simpa using hk)
              have hne : ¬ n₀ = nk := by
                intro hc
                exact hnotmem (hc ▸ mem_of_getElem_eq ns' k nk hk)
              constructor
              · rw [assocGet_append, hmapk]
                simp [assocGet, hne]
              · rw [assocGet_append, hdbgk]
                simp [assocGet, hne]
            have hm' : m ≤ rest.length := by simpa using hm
            rw [hstep, ih rest (map ++ [(n₀, value)]) (dbg ++ [(n₀, d)]) s₂ ns' s₃
              hrest hm' hfresh' hnodup']
            simp [List.take_succ_cons, List.zip_cons_cons, List.append_assoc,
              List.singleton_append]

theorem drop_eq_cons_of_getElem {β : Type} :
    ∀ (l : List β) (j : Nat) (b : β), l[j]? = some b →
      l.drop j = b :: l.drop (j + 1) := by
  intro l
  induction l with
  | nil => intro j b h; simp at h
  | cons hd tl ih =>
    intro j b h
    cases j with
    | zero =>
      obtain rfl : hd = b := by simpa using h
      rfl
    | succ j' =>
      simp only [List.getElem?_cons_succ] at h
      simpa [List.drop_succ_cons] using ih j' b h

/-- C3: scoped duplicate detection.  In a cell under `name` whose pending
triples are `ps`, if the scope expressions of the first `j` triples evaluate
(in insertion order) to pairwise distinct syntax nodes `ns`, triple `i`
(`i < j`) having produced node `n`, and triple `j`'s scope expression then
evaluates to the same node `n`, the force of the cell stops at that second
occurrence and returns `DuplicateVariable("<node>.<name>")` carrying the
debug info of both the earlier triple `i` and the later triple `j` as
dual-origin context; the same error is returned by `evaluate` on the cell
(any scope node requested) and by `evaluate_all` on a container holding the
cell, the cell being left `Forcing`. -/
theorem C3_scoped_duplicate_detection (fuel : Nat) (name : Identifier)
    (ps : List (LazyValue × LazyValue × DebugInfo)) (i j : Nat) (n : SyntaxNodeRef)
    (ns : List SyntaxNodeRef) (s s₁ s' : ExecState)
    (sci vi : LazyValue) (di : DebugInfo) (scj vj : LazyValue) (dj : DebugInfo)
    (hps_i : ps[i]? = some (sci, vi, di))
    (hps_j : ps[j]? = some (scj, vj, dj))
    (hij : i < j)
    (hsn : scopeNodes fuel (ps.take j) s = some (ns, s₁))
    (hnodup : ns.Nodup)
    (hni : ns[i]? = some n)
    (hnj : LazyValue.evaluate_as_syntax_node fuel scj s₁ = some (.ok n, s')) :
    LazyScopedVariables.force fuel name (.Unforced ps) s =
      some (.error (.InContext (.pair di.ctx dj.ctx)
        (.DuplicateVariable (toString n ++ "." ++ name))), s') ∧
    (∀ (vars : LazyScopedVariables) (scope_node : SyntaxNodeRef),
      vars.getCell? name = some (.Unforced ps) →
      LazyScopedVariables.evaluate fuel vars scope_node name s =
        some (.error (.InContext (.pair di.ctx dj.ctx)
          (.DuplicateVariable (toString n ++ "." ++ name))),
          vars.setCell name .Forcing, s')) ∧
    (∀ (vars : LazyScopedVariables), vars.cells = [(name, .Unforced ps)] →
      LazyScopedVariables.evaluate_all fuel vars s =
        some (.error (.InContext (.pair di.ctx dj.ctx)
          (.DuplicateVariable (toString n ++ "." ++ name))),
          vars.setCell name .Forcing, s')) := by
  have hjlen : j < ps.length := by
    by_contra hcon
    rw [List.getElem?_eq_none (by omega)] at hps_j
    cases hps_j
  have haccum := forcePairs_accum fuel name j ps [] [] s ns s₁ hsn (by omega)
    (fun k nk _ => ⟨rfl, rfl⟩) hnodup
  have hdrop : ps.drop j = (scj, vj, dj) :: ps.drop (j + 1) :=
    drop_eq_cons_of_getElem ps j (scj, vj, dj) hps_j
  have htake_i : (ps.take j)[i]? = some (sci, vi, di) := by
    rw [List.getElem?_take]
    simp [hps_i, hij]
  have hvali : ((ps.take j).map (fun p => p.2.1))[i]? = some vi := by
    rw [List.getElem?_map, htake_i]
    rfl
  have hdbgi : ((ps.take j).map (fun p => p.2.2))[i]? = some di := by
    rw [List.getElem?_map, htake_i]
    rfl
  have hprev_map : assocGet (ns.zip ((ps.take j).map (fun p => p.2.1))) n = some vi :=
    assocGet_zip_of_nodup ns _ i n vi hnodup hni hvali
  have hprev_dbg : assocGet (ns.zip ((ps.take j).map (fun p => p.2.2))) n = some di :=
    assocGet_zip_of_nodup ns _ i n di hnodup hni hdbgi
  have hforce : LazyScopedVariables.force fuel name (.Unforced ps) s =
      some (.error (.InContext (.pair di.ctx dj.ctx)
        (.DuplicateVariable (toString n ++ "." ++ name))), s') := by
    rw [List.map_take] at hprev_map hprev_dbg
    rw [LazyScopedVariables.force, haccum, hdrop]
    simp [forcePairs, hnj, assocInsert_fst, hprev_map, hprev_dbg]
  refine ⟨hforce, fun vars scope_node hget => ?_, fun vars hcells => ?_⟩
  · rw [scoped_evaluate_present fuel scope_node s hget, hforce]
  · have hget : vars.getCell? name = some (.Unforced ps) := by
      simp [LazyScopedVariables.getCell?, hcells, assocGet]
    rw [LazyScopedVariables.evaluate_all, hcells]
    rw [show ([(name, ScopedValues.Unforced ps)].map Prod.fst) = [name] from rfl]
    rw [scoped_evaluate_allAux_cons_some fuel [] s hget, hforce]

/-- Two pending triples whose scope expressions both evaluate to node 1. -/
def dupPairs : List (LazyValue × LazyValue × DebugInfo) :=
  [(.const (.node 1), .const (.data 10), ⟨⟨1⟩⟩),
   (.const (.node 1), .const (.data 20), ⟨⟨2⟩⟩)]

/-- Scoped container holding the duplicate triples under name `x`. -/
def dupVars : LazyScopedVariables := ⟨[("x", .Unforced dupPairs)]⟩

/-- The dual-origin duplicate error of the concrete scenario. -/
def dupErr : ExecutionError :=
  .InContext (.pair ⟨1⟩ ⟨2⟩)
    (.DuplicateVariable (toString (1 : SyntaxNodeRef) ++ "." ++ "x"))

theorem C3_scoped_duplicate_detection_witness :
    LazyScopedVariables.force 5 "x" (.Unforced dupPairs) svEmptyState =
      some (.error dupErr, ⟨⟨[]⟩, 2⟩) ∧
    LazyScopedVariables.evaluate 5 dupVars 1 "x" svEmptyState =
      some (.error dupErr, dupVars.setCell "x" .Forcing, ⟨⟨[]⟩, 2⟩) ∧
    LazyScopedVariables.evaluate_all 5 dupVars svEmptyState =
      some (.error dupErr, dupVars.setCell "x" .Forcing, ⟨⟨[]⟩, 2⟩) := by
  have T := C3_scoped_duplicate_detection 5 "x" dupPairs 0 1 1 [1] svEmptyState
    ⟨⟨[]⟩, 1⟩ ⟨⟨[]⟩, 2⟩ (.const (.node 1)) (.const (.data 10)) ⟨⟨1⟩⟩
    (.const (.node 1)) (.const (.data 20)) ⟨⟨2⟩⟩ (by decide) (by decide)
    (by decide) (by decide) (by decide) (by decide) (by decide)
  exact ⟨T.1, T.2.1 dupVars 1 (by decide), T.2.2 dupVars (by decide)⟩

end TSG
